import Mathlib

/-! Image customizer: `customizeutils.go`

A shallow embedding of `toolkit/tools/pkg/imagecustomizerlib/customizeutils.go`
(CBL-Mariner).  The Go functions mutate the host: files, the kernel mount
table and the root directory of the process.  Here that state is an explicit
`World` threaded through every function, and every function returns the world
it leaves behind together with its Go `error` (`none` is `nil`).

What the source does not determine (whether a system call fails, what a script
or the package manager does to the files) is a field of `Env`; every theorem
quantifies over all environments.
-/

set_option autoImplicit false

namespace ImageCustomizer

/-! ## Go errors -/

/-- A Go `error` value: a plain message, or an error wrapped by `fmt.Errorf` with `%w`. -/
inductive GoError where
  | msg (text : String)
  | wrap (context : String) (cause : GoError)
  deriving DecidableEq, Repr

/-- The `Error()` string: a wrapping error prints its context, then its cause. -/
def GoError.Error : GoError → String
  | .msg text => text
  | .wrap context cause => context ++ cause.Error

/-- The call `fmt.Errorf(context + "%w", err)`. -/
def Errorf (context : String) (err : GoError) : GoError :=
  .wrap context err

/-! ## `path/filepath` (Unix)

The functions of the Go standard library that the source calls, after the Go sources.  A
path is a list of characters.  `Clean` compares only with the ASCII characters `/` and `.`,
so on a UTF-8 string it does to the characters what the Go code does to the bytes. -/

namespace filepath

/-- The Unix `os.IsPathSeparator`. -/
def isSep (c : Char) : Bool := c == '/'

/-- The test `path[r] == '.' && (r+1 == n || os.IsPathSeparator(path[r+1]))` on the
unread part `path[r:]`. -/
def dotElem : List Char → Bool
  | [] => false
  | [c] => c == '.'
  | c :: d :: _ => c == '.' && isSep d

/-- The test `path[r] == '.' && path[r+1] == '.' && (r+2 == n || os.IsPathSeparator(path[r+2]))`
on the unread part `path[r:]`. -/
def dotDotElem : List Char → Bool
  | [] => false
  | [_] => false
  | [c, d] => c == '.' && d == '.'
  | c :: d :: e :: _ => c == '.' && d == '.' && isSep e

/-- The loop `for ; r < n && !os.IsPathSeparator(path[r]); r++ { out.append(path[r]) }`:
returns the unread part and the buffer. -/
def copyElem : List Char → List Char → List Char × List Char
  | [], out => ([], out)
  | c :: rest, out => if isSep c then (c :: rest, out) else copyElem rest (out ++ [c])

/-- The loop `for out.w > dotdot && !os.IsPathSeparator(out.index(out.w)) { out.w-- }`,
by recursion on `out.w`; `buf` holds the bytes written so far. -/
def backtrackLoop (buf : List Char) (dotdot : Nat) : Nat → Nat
  | 0 => 0
  | w + 1 =>
    if dotdot < w + 1 && !isSep (buf.getD (w + 1) '/') then backtrackLoop buf dotdot w
    else w + 1

/-- The `..` backtrack: `out.w--` and then `backtrackLoop`.  The buffer `out` is the
written part `buf[:w]` of the `lazybuf`. -/
def backtrack (out : List Char) (dotdot : Nat) : List Char :=
  out.take (backtrackLoop out dotdot (out.length - 1))

/-- The main loop `for r < n` of `Clean`.  `path` is the unread part `path[r:]`,
`out` the written part of the buffer.  Every iteration reads at least one byte, so
`path.length` iterations are enough (`cleanLoop_fuel`). -/
def cleanLoop (rooted : Bool) : Nat → List Char → List Char → Nat → List Char
  | 0, _, out, _ => out
  | fuel + 1, path, out, dotdot =>
    match path with
    | [] => out
    | c :: rest =>
      if isSep c then
        -- empty path element
        cleanLoop rooted fuel rest out dotdot
      else if dotElem (c :: rest) then
        -- . element
        cleanLoop rooted fuel rest out dotdot
      else if dotDotElem (c :: rest) then
        -- .. element: remove to last separator
        if dotdot < out.length then
          cleanLoop rooted fuel (rest.drop 1) (backtrack out dotdot) dotdot
        else if !rooted then
          let out1 := if 0 < out.length then out ++ ['/'] else out
          let out2 := out1 ++ ['.', '.']
          cleanLoop rooted fuel (rest.drop 1) out2 out2.length
        else
          cleanLoop rooted fuel (rest.drop 1) out dotdot
      else
        -- real path element: add slash if needed, copy element
        let out1 :=
          if (rooted && out.length != 1) || (!rooted && out.length != 0) then out ++ ['/']
          else out
        let r := copyElem (c :: rest) out1
        cleanLoop rooted fuel r.1 r.2 dotdot

/-- The function `Clean` on the bytes of the path (no volume name on Unix). -/
def cleanChars (path : List Char) : List Char :=
  match path with
  | [] => ['.']
  | c :: rest =>
    let rooted := isSep c
    let out :=
      if rooted then cleanLoop rooted path.length rest ['/'] 1
      else cleanLoop rooted path.length path [] 0
    if out.length == 0 then ['.'] else out

/-- The Go function `filepath.Clean`. -/
def Clean (path : String) : String := ⟨cleanChars path.data⟩

/-- The Go function `strings.Join(elems, "/")` on the bytes. -/
def joinSep : List (List Char) → List Char
  | [] => []
  | [e] => e
  | e :: rest => e ++ '/' :: joinSep rest

/-- The Go function `filepath.Join`: the elements from the first non-empty one on are
joined with `/` and cleaned; the result is empty when every element is. -/
def joinChars : List (List Char) → List Char
  | [] => []
  | e :: rest => if e = [] then joinChars rest else cleanChars (joinSep (e :: rest))

/-- The call `filepath.Join(a, b)`. -/
def Join (a b : String) : String := ⟨joinChars [a.data, b.data]⟩

end filepath

/-! ## Path components -/

/-- The components of a path: the pieces between its separators (`a/../b` has the
components `a`, `..` and `b`; an empty path has one empty component). -/
def components : List Char → List (List Char)
  | [] => [[]]
  | c :: rest =>
    if filepath.isSep c then [] :: components rest
    else (c :: (components rest).headD []) :: (components rest).tail

/-- Is the path `q` the directory `dir` or a path below it? -/
def IsAtOrBelow (dir q : String) : Prop :=
  q.data = dir.data ∨ dir.data ++ ['/'] <+: q.data

/-! ## The state of the host -/

/-- A regular file: its bytes and its permission bits (`fs.FileMode`). -/
structure FileData where
  content : String
  mode : Nat
  deriving DecidableEq, Repr

/-- The files of the host, as a finite map from absolute path to file; the first
binding of a path is the file.  Directories are implicit: a directory exists when a
file lies under it. -/
abbrev Files := List (String × FileData)

namespace Files

/-- The file at `path`, if there is one. -/
def lookup : Files → String → Option FileData
  | [], _ => none
  | (p, d) :: rest, path => if p = path then some d else lookup rest path

/-- Is `q` the path `path` itself, or a path below the directory `path`? -/
def atOrUnder (path q : String) : Bool :=
  q == path || (path.data ++ ['/']).isPrefixOf q.data

/-- Does `path` exist, as a file or as a directory with something in it? -/
def pathExists (fs : Files) (path : String) : Bool :=
  fs.any fun e => atOrUnder path e.1

/-- Is a regular file one of the parents of `path`?  Such a path cannot exist, and the
system calls on it fail with `ENOTDIR`. -/
def belowFile (fs : Files) (path : String) : Bool :=
  fs.any fun e => (e.1.data ++ ['/']).isPrefixOf path.data

/-- The files left when `path` and everything below it is removed. -/
def removeTree (fs : Files) (path : String) : Files :=
  fs.filter fun e => !atOrUnder path e.1

/-- The files after `path` is created or overwritten with `d`. -/
def put (fs : Files) (path : String) (d : FileData) : Files :=
  (path, d) :: fs.filter fun e => !(e.1 == path)

end Files

/-- What the functions do to the host, in the order it happens. -/
inductive Event where
  /-- The orchestrator is about to call the named step. -/
  | step (name : String)
  | removeAll (path : String)
  | copy (src dst : String)
  | write (content path : String)
  | packages
  | addFiles (src dest : String) (perm : Option Nat)
  /-- A mount attempt and whether it succeeded. -/
  | mount (source target : String) (ok : Bool)
  /-- An unmount attempt and whether it succeeded. -/
  | unmount (target : String) (ok : Bool)
  /-- A command starts, with the process root and the active mounts at that moment. -/
  | exec (root program : String) (args : List String) (mounts : List String)
  deriving DecidableEq, Repr

/-- The state of the host: files, active mount targets, the root directory of the
process, and the events so far (oldest first). -/
structure World where
  files : Files
  mounts : List String
  root : String
  trace : List Event
  deriving DecidableEq, Repr

/-- Record an event. -/
def World.log (w : World) (e : Event) : World :=
  { w with trace := w.trace ++ [e] }

/-! ## The configuration (`imagecustomizerapi`) -/

/-- The type `imagecustomizerapi.FileConfig`: destination path and optional permissions. -/
structure FileConfig where
  Path : String
  Permissions : Option Nat
  deriving DecidableEq, Repr

/-- The type `imagecustomizerapi.Script`. -/
structure Script where
  Path : String
  Args : String
  deriving DecidableEq, Repr

/-- The fields of `imagecustomizerapi.SystemConfig` read by `customizeutils.go`.
`AdditionalFiles` is a Go map; the list holds its entries in the order in which the
`range` loop of this run visits them. -/
structure SystemConfig where
  Hostname : String
  AdditionalFiles : List (String × List FileConfig)
  PostInstallScripts : List Script
  FinalizeImageScripts : List Script
  deriving DecidableEq, Repr

/-- The type `safechroot.FileToCopy`. -/
structure FileToCopy where
  Src : String
  Dest : String
  Permissions : Option Nat
  deriving DecidableEq, Repr

/-- The type `safechroot.Chroot`: the image root directory. -/
structure Chroot where
  rootDir : String
  deriving DecidableEq, Repr

/-- The method `(*Chroot).RootDir`. -/
def Chroot.RootDir (c : Chroot) : String := c.rootDir

/-- The handle `*safemount.Mount`: the target and whether this handle still holds the
mount. -/
structure Mount where
  target : String
  isMounted : Bool
  deriving DecidableEq, Repr

/-! ## The environment -/

/-- Everything the source leaves to its collaborators and to the operating system.
A `...Fail` field says whether the operation fails in the given world (and with which
error); it may depend on the whole world, the events so far included, so the same call
may fail once and succeed later. -/
structure Env where
  /-- A failing `os.RemoveAll` (a parent that cannot be searched, a file that cannot be
  unlinked, ...): the error and the files it leaves.  It is asked on every call, whether
  the path exists or not. -/
  removeAllFail : String → World → Option (GoError × Files)
  /-- A failing `file.Copy` although the source exists. -/
  copyFail : String → String → World → Option GoError
  /-- A failing `file.Write`. -/
  writeFail : String → String → World → Option GoError
  /-- Permission bits of a file newly created by `file.Write`. -/
  createMode : Nat
  /-- A failing `Chroot.AddFiles` although the source exists. -/
  addFilesFail : Chroot → FileToCopy → World → Option GoError
  /-- The function `addRemoveAndUpdatePackages` (another file of the package): the
  files it leaves and its error. -/
  packages : String → String → SystemConfig → Chroot → List String → Bool → World →
    Files × Option GoError
  /-- A failing mount system call. -/
  mountFail : String → String → World → Option GoError
  /-- A failing unmount system call. -/
  unmountFail : String → World → Option GoError
  /-- The constant `shell.ShellProgram`. -/
  ShellProgram : String
  /-- A command run with the process root of the given world: the files it leaves
  and its error (a non-zero exit status is an error). -/
  execute : String → List String → World → Files × Option GoError

/-! ## Collaborators -/

namespace os

/-- The Go function `os.RemoveAll`: "removes path and any children it contains.  It
removes everything it can but returns the first error it encounters.  If the path does
not exist, RemoveAll returns nil".  Only `ENOENT` counts as "does not exist": when a
parent of the path is a regular file, `unlinkat` fails with `ENOTDIR` and that error is
returned, whether or not the environment reports a failure of its own. -/
def RemoveAll (env : Env) (path : String) (w : World) : World × Option GoError :=
  let w := w.log (.removeAll path)
  if Files.belowFile w.files path then
    (w, some (.msg ("unlinkat " ++ path ++ ": not a directory")))
  else
    match env.removeAllFail path w with
    | some (err, left) => ({ w with files := left }, some err)
    | none => ({ w with files := Files.removeTree w.files path }, none)

end os

namespace file

/-- Modelled from the spec: the repository's `file.Copy` (package `internal/file`),
"`copy(src, dst) -> error` ... overwrite-if-exists semantics, create parents as
needed".  The copy carries the source's bytes and mode. -/
def Copy (env : Env) (src dst : String) (w : World) : World × Option GoError :=
  let w := w.log (.copy src dst)
  match Files.lookup w.files src with
  | none => (w, some (.msg ("open " ++ src ++ ": no such file or directory")))
  | some d =>
    match env.copyFail src dst w with
    | some err => (w, some err)
    | none => ({ w with files := Files.put w.files dst d }, none)

/-- Modelled from the spec: the repository's `file.Write` (package `internal/file`),
"`write(content, path) -> error` — overwrite-if-exists semantics, create parents as
needed".  An overwritten file keeps its mode. -/
def Write (env : Env) (data dst : String) (w : World) : World × Option GoError :=
  let w := w.log (.write data dst)
  match env.writeFail data dst w with
  | some err => (w, some err)
  | none =>
    let mode := ((Files.lookup w.files dst).map FileData.mode).getD env.createMode
    ({ w with files := Files.put w.files dst ⟨data, mode⟩ }, none)

end file

/-- Modelled from the spec: the repository's `(*Chroot).AddFiles` (package
`internal/safechroot`), which "copies each source file to `root + destination`,
creating parent directories as needed, and applies the permission mode if specified,
defaulting to the source file's existing mode otherwise; fails with `FileCopyError` if
source is unreadable or destination parent cannot be created". -/
def Chroot.AddFiles (env : Env) (c : Chroot) (f : FileToCopy) (w : World) :
    World × Option GoError :=
  let w := w.log (.addFiles f.Src f.Dest f.Permissions)
  match Files.lookup w.files f.Src with
  | none => (w, some (.msg ("open " ++ f.Src ++ ": no such file or directory")))
  | some d =>
    match env.addFilesFail c f w with
    | some err => (w, some err)
    | none =>
      let dest := filepath.Join c.rootDir f.Dest
      ({ w with files := Files.put w.files dest ⟨d.content, f.Permissions.getD d.mode⟩ }, none)

/-- Modelled from the spec: the repository's `(*Chroot).UnsafeRun` (package
`internal/safechroot`), which "redirects the calling execution context's filesystem root
to the jail root for the duration of `fn`, then restores it, even if `fn` fails". -/
def Chroot.UnsafeRun (c : Chroot) (toRun : World → World × Option GoError) (w : World) :
    World × Option GoError :=
  let r := toRun { w with root := c.rootDir }
  ({ r.1 with root := w.root }, r.2)

namespace shell

/-- Modelled from the spec: the repository's `shell.ExecuteLive` (package
`internal/shell`), which "executes a shell command line, streams stdout/stderr live to
the caller's logging sink, returns the process's exit status as an error if non-zero". -/
def ExecuteLive (env : Env) (_squashErrors : Bool) (program : String) (args : List String)
    (w : World) : World × Option GoError :=
  let w := w.log (.exec w.root program args w.mounts)
  let r := env.execute program args w
  ({ w with files := r.1 }, r.2)

end shell

namespace unix

/-- The Linux mount flag `MS_RDONLY`. -/
def MS_RDONLY : Nat := 0x1

/-- The Linux mount flag `MS_BIND`. -/
def MS_BIND : Nat := 0x1000

end unix

namespace safemount

/-- Modelled from the spec: the repository's `safemount.NewMount` (package
`internal/safemount`), "`acquire(source, target, fsType, flags, cleanupAllowed) -> Mount
| error`", which fails when "the underlying mount syscall is rejected" and otherwise
"mutates host kernel mount table". -/
def NewMount (env : Env) (source target _fstype : String) (_flags : Nat) (_data : String)
    (_makeAndDeleteDir : Bool) (w : World) : World × Except GoError Mount :=
  match env.mountFail source target w with
  | some err => (w.log (.mount source target false), .error err)
  | none =>
    ({ w with mounts := target :: w.mounts }.log (.mount source target true),
      .ok ⟨target, true⟩)

end safemount

/-- Modelled from the spec: the repository's `(*Mount).Close` (package
`internal/safemount`), "`release(Mount) -> error`, idempotent — calling release on an
already-released mount is a no-op success, never a second unmount attempt"; a release is
"mount/unmount syscall failure" when the unmount is rejected, and the handle then still
holds the mount. -/
def Mount.Close (env : Env) (m : Mount) (w : World) : Mount × World × Option GoError :=
  if m.isMounted then
    match env.unmountFail m.target w with
    | some err => (m, w.log (.unmount m.target false), some err)
    | none =>
      ({ m with isMounted := false },
        { w with mounts := w.mounts.erase m.target }.log (.unmount m.target true), none)
  else (m, w, none)

/-- The function `addRemoveAndUpdatePackages`, defined in another file of the package:
its effect on the files and its error are the environment's. -/
def addRemoveAndUpdatePackages (env : Env) (buildDir baseConfigPath : String)
    (config : SystemConfig) (imageChroot : Chroot) (rpmsSources : List String)
    (useBaseImageRpmRepos : Bool) (w : World) : World × Option GoError :=
  let w := w.log .packages
  let r := env.packages buildDir baseConfigPath config imageChroot rpmsSources
    useBaseImageRpmRepos w
  ({ w with files := r.1 }, r.2)

/-! ## `customizeutils.go` -/

/-- The constant `configDirMountPathInChroot`. -/
def configDirMountPathInChroot : String := "/_imageconfigs"

/-- The constant `resolveConfPath`. -/
def resolveConfPath : String := "/etc/resolv.conf"

/-- The function `overrideResolvConf`. -/
def overrideResolvConf (env : Env) (imageChroot : Chroot) (w : World) :
    World × Option GoError :=
  let imageResolveConfPath := filepath.Join imageChroot.RootDir resolveConfPath
  match os.RemoveAll env imageResolveConfPath w with
  | (w, some err) => (w, some (Errorf "failed to delete existing resolv.conf file: " err))
  | (w, none) =>
    match file.Copy env resolveConfPath imageResolveConfPath w with
    | (w, some err) =>
      (w, some (Errorf "failed to override resolv.conf file with host's resolv.conf: " err))
    | (w, none) => (w, none)

/-- The function `deleteResolvConf`. -/
def deleteResolvConf (env : Env) (imageChroot : Chroot) (w : World) :
    World × Option GoError :=
  let imageResolveConfPath := filepath.Join imageChroot.RootDir resolveConfPath
  match os.RemoveAll env imageResolveConfPath w with
  | (w, some err) => (w, some (Errorf "failed to delete overridden resolv.conf file: " err))
  | (w, none) => (w, none)

/-- The function `updateHostname`. -/
def updateHostname (env : Env) (hostname : String) (imageChroot : Chroot) (w : World) :
    World × Option GoError :=
  if hostname = "" then (w, none)
  else
    let hostnameFilePath := filepath.Join imageChroot.RootDir "etc/hostname"
    match file.Write env hostname hostnameFilePath w with
    | (w, some err) => (w, some (Errorf "failed to write hostname file: " err))
    | (w, none) => (w, none)

/-- The inner loop of `copyAdditionalFiles`: `for _, fileConfig := range fileConfigs`. -/
def copyFileConfigs (env : Env) (baseConfigPath sourceFile : String) (imageChroot : Chroot) :
    List FileConfig → World → World × Option GoError
  | [], w => (w, none)
  | fileConfig :: rest, w =>
    let fileToCopy : FileToCopy :=
      { Src := filepath.Join baseConfigPath sourceFile
        Dest := fileConfig.Path
        Permissions := fileConfig.Permissions }
    match imageChroot.AddFiles env fileToCopy w with
    | (w, some err) => (w, some err)
    | (w, none) => copyFileConfigs env baseConfigPath sourceFile imageChroot rest w

/-- The function `copyAdditionalFiles`; `additionalFiles` holds the entries of the map
in the order the `range` loop visits them. -/
def copyAdditionalFiles (env : Env) (baseConfigPath : String)
    (additionalFiles : List (String × List FileConfig)) (imageChroot : Chroot) :
    World → World × Option GoError :=
  match additionalFiles with
  | [] => fun w => (w, none)
  | (sourceFile, fileConfigs) :: rest => fun w =>
    match copyFileConfigs env baseConfigPath sourceFile imageChroot fileConfigs w with
    | (w, some err) => (w, some err)
    | (w, none) => copyAdditionalFiles env baseConfigPath rest imageChroot w

/-- One iteration of the loop of `runScripts`: build the command line and run it in
the chroot. -/
def runScript (env : Env) (imageChroot : Chroot) (script : Script) (w : World) :
    World × Option GoError :=
  let scriptPathInChroot := filepath.Join configDirMountPathInChroot script.Path
  let command := scriptPathInChroot ++ " " ++ script.Args
  imageChroot.UnsafeRun
    (fun w =>
      match shell.ExecuteLive env false env.ShellProgram ["-c", command] w with
      | (w, some err) => (w, some err)
      | (w, none) => (w, none))
    w

/-- The loop of `runScripts`: `for _, script := range scripts`. -/
def scriptLoop (env : Env) (imageChroot : Chroot) : List Script → World → World × Option GoError
  | [], w => (w, none)
  | script :: rest, w =>
    match runScript env imageChroot script w with
    | (w, some err) => (w, some err)
    | (w, none) => scriptLoop env imageChroot rest w

/-- The body of `runScripts` after the `defer`: the loop, then the explicit
`mount.Close()`. -/
def runScriptsBody (env : Env) (scripts : List Script) (imageChroot : Chroot) (mount : Mount)
    (w : World) : Mount × World × Option GoError :=
  match scriptLoop env imageChroot scripts w with
  | (w, some err) => (mount, w, some err)
  | (w, none) =>
    match mount.Close env w with
    | (mount, w, some err) => (mount, w, some err)
    | (mount, w, none) => (mount, w, none)

/-- The function `runScripts`.  The deferred `mount.Close()` runs on every return path
after the mount was acquired; its error is discarded. -/
def runScripts (env : Env) (baseConfigPath : String) (scripts : List Script)
    (imageChroot : Chroot) (w : World) : World × Option GoError :=
  let configDirMountPath := filepath.Join imageChroot.RootDir configDirMountPathInChroot
  match safemount.NewMount env baseConfigPath configDirMountPath ""
      (unix.MS_BIND ||| unix.MS_RDONLY) "" true w with
  | (w, .error err) => (w, some err)
  | (w, .ok mount) =>
    let body := runScriptsBody env scripts imageChroot mount w
    let deferred := Mount.Close env body.1 body.2.1
    (deferred.2.1, body.2.2)

/-- The names of the seven steps of `doCustomizations`, in call order. -/
def stepNames : List String :=
  ["overrideResolvConf", "addRemoveAndUpdatePackages", "updateHostname",
    "copyAdditionalFiles", "runScripts(PostInstallScripts)",
    "runScripts(FinalizeImageScripts)", "deleteResolvConf"]

/-- The function `doCustomizations`.  Before each call the step's name is recorded in
the trace. -/
def doCustomizations (env : Env) (buildDir baseConfigPath : String) (config : SystemConfig)
    (imageChroot : Chroot) (rpmsSources : List String) (useBaseImageRpmRepos : Bool)
    (w : World) : World × Option GoError :=
  match overrideResolvConf env imageChroot (w.log (.step "overrideResolvConf")) with
  | (w, some err) => (w, some err)
  | (w, none) =>
  match addRemoveAndUpdatePackages env buildDir baseConfigPath config imageChroot rpmsSources
      useBaseImageRpmRepos (w.log (.step "addRemoveAndUpdatePackages")) with
  | (w, some err) => (w, some err)
  | (w, none) =>
  match updateHostname env config.Hostname imageChroot (w.log (.step "updateHostname")) with
  | (w, some err) => (w, some err)
  | (w, none) =>
  match copyAdditionalFiles env baseConfigPath config.AdditionalFiles imageChroot
      (w.log (.step "copyAdditionalFiles")) with
  | (w, some err) => (w, some err)
  | (w, none) =>
  match runScripts env baseConfigPath config.PostInstallScripts imageChroot
      (w.log (.step "runScripts(PostInstallScripts)")) with
  | (w, some err) => (w, some err)
  | (w, none) =>
  match runScripts env baseConfigPath config.FinalizeImageScripts imageChroot
      (w.log (.step "runScripts(FinalizeImageScripts)")) with
  | (w, some err) => (w, some err)
  | (w, none) =>
  match deleteResolvConf env imageChroot (w.log (.step "deleteResolvConf")) with
  | (w, some err) => (w, some err)
  | (w, none) => (w, none)

/-! ## Observations on traces -/

/-- The step names recorded in a trace, in order. -/
def stepsOf (trace : List Event) : List String :=
  trace.filterMap fun e => match e with
    | .step name => some name
    | _ => none

/-- The command starts recorded in a trace, in order. -/
def execsOf (trace : List Event) : List Event :=
  trace.filter fun e => match e with
    | .exec _ _ _ _ => true
    | _ => false

/-- The events recorded between the world `w` and a later world `w'`. -/
def newEvents (w w' : World) : List Event :=
  w'.trace.drop w.trace.length

/-- The event that records `script` starting in the chroot while `mounts` are active:
the shell is given `-c` and the command line `<script path in the mount> <args>`. -/
def execEvent (env : Env) (imageChroot : Chroot) (mounts : List String) (script : Script) :
    Event :=
  .exec imageChroot.rootDir env.ShellProgram
    ["-c", filepath.Join configDirMountPathInChroot script.Path ++ " " ++ script.Args] mounts

/-- The mount point of the configuration directory: `<imageRoot>/_imageconfigs`. -/
def configDirMountPath (imageChroot : Chroot) : String :=
  filepath.Join imageChroot.RootDir configDirMountPathInChroot

/-! ## The pipeline of the specification -/

/-- The pipeline as the specification describes it (§4.4): the named steps run in list
order, "advancing to the next step only on success of the current one"; the first failure
ends the run with that step's world and error. -/
def pipeline : List (String × (World → World × Option GoError)) → World →
    World × Option GoError
  | [], w => (w, none)
  | (name, run) :: rest, w =>
    match run (w.log (.step name)) with
    | (w, some err) => (w, some err)
    | (w, none) => pipeline rest w

/-- The seven steps "override-network-config, package add/remove/update, update-hostname,
copy-additional-files, run post-install scripts, run finalize scripts,
delete-overridden-network-config", with their arguments. -/
def customizationSteps (env : Env) (buildDir baseConfigPath : String) (config : SystemConfig)
    (imageChroot : Chroot) (rpmsSources : List String) (useBaseImageRpmRepos : Bool) :
    List (String × (World → World × Option GoError)) :=
  [("overrideResolvConf", overrideResolvConf env imageChroot),
   ("addRemoveAndUpdatePackages",
      addRemoveAndUpdatePackages env buildDir baseConfigPath config imageChroot rpmsSources
        useBaseImageRpmRepos),
   ("updateHostname", updateHostname env config.Hostname imageChroot),
   ("copyAdditionalFiles",
      copyAdditionalFiles env baseConfigPath config.AdditionalFiles imageChroot),
   ("runScripts(PostInstallScripts)",
      runScripts env baseConfigPath config.PostInstallScripts imageChroot),
   ("runScripts(FinalizeImageScripts)",
      runScripts env baseConfigPath config.FinalizeImageScripts imageChroot),
   ("deleteResolvConf", deleteResolvConf env imageChroot)]

/-! ## The copies of `copyAdditionalFiles` -/

/-- The `safechroot.FileToCopy` values that `copyAdditionalFiles` builds, in the order it
builds them: for every entry of the map, one per file configuration. -/
def fileCopies (baseConfigPath : String) : List (String × List FileConfig) → List FileToCopy
  | [] => []
  | (sourceFile, fileConfigs) :: rest =>
    fileConfigs.map (fun fileConfig =>
      { Src := filepath.Join baseConfigPath sourceFile
        Dest := fileConfig.Path
        Permissions := fileConfig.Permissions : FileToCopy }) ++ fileCopies baseConfigPath rest

/-- The path in the host at which `AddFiles` writes the copy: `<imageRoot>` joined with the
destination. -/
def destPath (imageChroot : Chroot) (f : FileToCopy) : String :=
  filepath.Join imageChroot.rootDir f.Dest

/-- The calls `imageChroot.AddFiles(f)` for the copies of a list, one after the other,
stopping at the first error. -/
def addAll (env : Env) (imageChroot : Chroot) : List FileToCopy → World → World × Option GoError
  | [], w => (w, none)
  | f :: rest, w =>
    match imageChroot.AddFiles env f w with
    | (w, some err) => (w, some err)
    | (w, none) => addAll env imageChroot rest w

/-! ## Concrete environments and worlds -/

/-- An environment in which nothing fails; scripts and the package manager leave the
files alone. -/
def envOk : Env where
  removeAllFail := fun _ _ => none
  copyFail := fun _ _ _ => none
  writeFail := fun _ _ _ => none
  createMode := 0o644
  addFilesFail := fun _ _ _ => none
  packages := fun _ _ _ _ _ _ w => (w.files, none)
  mountFail := fun _ _ _ => none
  unmountFail := fun _ _ => none
  ShellProgram := "/bin/sh"
  execute := fun _ _ w => (w.files, none)

/-- An environment in which every unmount is rejected (the target is busy). -/
def envBusy : Env :=
  { envOk with unmountFail := fun _ _ => some (.msg "umount: target is busy") }

/-- An environment in which every mount is rejected. -/
def envNoMount : Env :=
  { envOk with mountFail := fun _ _ _ => some (.msg "mount: permission denied") }

/-- An environment in which every command exits with status 1. -/
def envExit1 : Env :=
  { envOk with execute := fun _ _ w => (w.files, some (.msg "exit status 1")) }

/-- An environment in which every `os.RemoveAll` is rejected and removes nothing (the
parent directory cannot be searched). -/
def envDenied : Env :=
  { envOk with
    removeAllFail := fun path w =>
      some (.msg ("unlinkat " ++ path ++ ": permission denied"), w.files) }

/-- The image root used in the examples. -/
def imgChroot : Chroot := ⟨"/img"⟩

/-- A host with a resolver configuration, an image that has its own, and two
configuration files. -/
def world0 : World where
  files :=
    [("/etc/resolv.conf", ⟨"nameserver 10.0.0.1", 0o644⟩),
     ("/img/etc/resolv.conf", ⟨"nameserver 127.0.0.53", 0o644⟩),
     ("/cfg/a.txt", ⟨"alpha", 0o600⟩),
     ("/cfg/b.txt", ⟨"beta", 0o755⟩)]
  mounts := []
  root := "/"
  trace := []

/-- A host whose image has a regular file where the directory `/etc` should be. -/
def worldEtcFile : World where
  files := [("/etc/resolv.conf", ⟨"nameserver 10.0.0.1", 0o644⟩), ("/img/etc", ⟨"", 0o644⟩)]
  mounts := []
  root := "/"
  trace := []

/-- A configuration with a hostname, one source file copied to two destinations, two
post-install scripts and one finalize script. -/
def config1 : SystemConfig where
  Hostname := "myhost"
  AdditionalFiles := [("a.txt", [⟨"/opt/a", some 0o644⟩, ⟨"/opt/b", none⟩])]
  PostInstallScripts := [⟨"a.sh", "x"⟩, ⟨"b.sh", ""⟩]
  FinalizeImageScripts := [⟨"fin.sh", ""⟩]

/-- A configuration whose only script is a finalize script. -/
def config2 : SystemConfig where
  Hostname := ""
  AdditionalFiles := []
  PostInstallScripts := []
  FinalizeImageScripts := [⟨"fin.sh", ""⟩]

/-- Two source files mapped to the same destination, one with a mode and one without. -/
def clashingFiles : List (String × List FileConfig) :=
  [("a.txt", [⟨"/opt/x", some 0o644⟩]), ("b.txt", [⟨"/opt/x", none⟩])]

/-! ## Files -/

namespace Files

theorem lookup_filter_ne (fs : Files) (p q : String) (h : q ≠ p) :
    lookup (fs.filter fun e => !(e.1 == p)) q = lookup fs q := by
  induction fs with
  | nil => rfl
  | cons e rest ih =>
    obtain ⟨k, d⟩ := e
    by_cases hk : k = p
    · subst hk
      have hq : ¬ k = q := fun h' => h h'.symm
      simp [List.filter_cons, lookup, hq, ih]
    · by_cases hkq : k = q
      · subst hkq
        simp [List.filter_cons, lookup, hk]
      · simp [List.filter_cons, lookup, hk, hkq, ih]

theorem lookup_put_self (fs : Files) (p : String) (d : FileData) :
    lookup (put fs p d) p = some d := by
  simp [put, lookup]

theorem lookup_put_ne (fs : Files) (p q : String) (d : FileData) (h : q ≠ p) :
    lookup (put fs p d) q = lookup fs q := by
  have hq : ¬ p = q := fun h' => h h'.symm
  simp [put, lookup, hq, lookup_filter_ne fs p q h]

theorem atOrUnder_self (p : String) : atOrUnder p p = true := by
  simp [atOrUnder]

theorem pathExists_removeTree (fs : Files) (p : String) :
    pathExists (removeTree fs p) p = false := by
  simp [pathExists, removeTree, List.any_eq_false, List.mem_filter]

theorem removeTree_of_not_pathExists (fs : Files) (p : String)
    (h : pathExists fs p = false) : removeTree fs p = fs := by
  simp only [pathExists, List.any_eq_false] at h
  simp only [removeTree, List.filter_eq_self]
  intro e he
  simp [h e he]

theorem belowFile_removeTree (fs : Files) (p q : String) (h : belowFile fs q = false) :
    belowFile (removeTree fs p) q = false := by
  simp only [belowFile, List.any_eq_false] at h ⊢
  intro e he
  exact h e (List.mem_of_mem_filter he)

theorem lookup_of_not_pathExists (fs : Files) (p : String)
    (h : pathExists fs p = false) : lookup fs p = none := by
  induction fs with
  | nil => rfl
  | cons e rest ih =>
    obtain ⟨k, d⟩ := e
    simp only [pathExists, List.any_cons, Bool.or_eq_false_iff] at h
    have hk : ¬ k = p := by
      intro hkp
      subst hkp
      simp [atOrUnder_self] at h
    simp only [lookup, hk, if_false]
    exact ih h.2

end Files

/-! ## `os.RemoveAll` -/

theorem RemoveAll_absent (env : Env) (path : String) (w : World)
    (h : Files.pathExists w.files path = false)
    (hdir : Files.belowFile w.files path = false)
    (henv : env.removeAllFail path (w.log (.removeAll path)) = none) :
    os.RemoveAll env path w = (w.log (.removeAll path), none) := by
  simp only [World.log] at henv
  simp [os.RemoveAll, World.log, hdir, henv, Files.removeTree_of_not_pathExists _ _ h]

theorem RemoveAll_ok_absent (env : Env) (path : String) (w : World)
    (h : (os.RemoveAll env path w).2 = none) :
    Files.pathExists (os.RemoveAll env path w).1.files path = false ∧
      Files.belowFile (os.RemoveAll env path w).1.files path = false := by
  unfold os.RemoveAll at h ⊢
  simp only [World.log] at h ⊢
  by_cases hx : Files.belowFile w.files path = true
  · simp [hx] at h
  · simp only [hx] at h ⊢
    rcases hfail : env.removeAllFail path
      { files := w.files, mounts := w.mounts, root := w.root,
        trace := w.trace ++ [Event.removeAll path] } with _ | ⟨err, left⟩
    · simp only [Bool.false_eq_true, if_false]
      exact ⟨Files.pathExists_removeTree _ _,
        Files.belowFile_removeTree _ _ _ (by simpa using hx)⟩
    · simp [hfail] at h

/-! ## `deleteResolvConf` and `updateHostname` -/

theorem deleteResolvConf_absent (env : Env) (imageChroot : Chroot) (v : World)
    (hv : Files.pathExists v.files
      (filepath.Join imageChroot.RootDir resolveConfPath) = false)
    (hdir : Files.belowFile v.files
      (filepath.Join imageChroot.RootDir resolveConfPath) = false)
    (henv : env.removeAllFail (filepath.Join imageChroot.RootDir resolveConfPath)
      (v.log (.removeAll (filepath.Join imageChroot.RootDir resolveConfPath))) = none) :
    deleteResolvConf env imageChroot v =
      (v.log (.removeAll (filepath.Join imageChroot.RootDir resolveConfPath)), none) := by
  simp [deleteResolvConf, RemoveAll_absent env _ v hv hdir henv]

theorem deleteResolvConf_ok_gone (env : Env) (imageChroot : Chroot) (w : World)
    (hok : (deleteResolvConf env imageChroot w).2 = none) :
    Files.pathExists (deleteResolvConf env imageChroot w).1.files
        (filepath.Join imageChroot.RootDir resolveConfPath) = false ∧
      Files.belowFile (deleteResolvConf env imageChroot w).1.files
        (filepath.Join imageChroot.RootDir resolveConfPath) = false := by
  have hrm := RemoveAll_ok_absent env
    (filepath.Join imageChroot.RootDir resolveConfPath) w
  unfold deleteResolvConf at hok ⊢
  simp only at hok ⊢
  split at hok
  · simp at hok
  · rename_i w1 heq
    simp only [heq] at hrm ⊢
    exact hrm trivial

/-- C8 (amended): `deleteResolvConf` is idempotent where `os.RemoveAll` is not rejected.
When `<imageRoot>/etc/resolv.conf` is absent, no parent of that path is a regular file and
the environment reports no failure, the call returns `nil` and changes nothing (the world
it leaves is the world it got, plus the record of the call).  And after a call that
returned `nil` the file is absent and no parent of the path is a regular file, so a second
call, unless the environment rejects it, returns `nil` again and changes nothing. -/
theorem deleteResolvConf_idempotent (env : Env) (imageChroot : Chroot) (w : World) :
    (Files.pathExists w.files (filepath.Join imageChroot.RootDir resolveConfPath) = false →
      Files.belowFile w.files (filepath.Join imageChroot.RootDir resolveConfPath) = false →
      env.removeAllFail (filepath.Join imageChroot.RootDir resolveConfPath)
        (w.log (.removeAll (filepath.Join imageChroot.RootDir resolveConfPath))) = none →
      deleteResolvConf env imageChroot w =
        (w.log (.removeAll (filepath.Join imageChroot.RootDir resolveConfPath)), none)) ∧
    ((deleteResolvConf env imageChroot w).2 = none →
      Files.pathExists (deleteResolvConf env imageChroot w).1.files
        (filepath.Join imageChroot.RootDir resolveConfPath) = false ∧
      Files.belowFile (deleteResolvConf env imageChroot w).1.files
        (filepath.Join imageChroot.RootDir resolveConfPath) = false ∧
      (env.removeAllFail (filepath.Join imageChroot.RootDir resolveConfPath)
          ((deleteResolvConf env imageChroot w).1.log
            (.removeAll (filepath.Join imageChroot.RootDir resolveConfPath))) = none →
        deleteResolvConf env imageChroot (deleteResolvConf env imageChroot w).1 =
          ((deleteResolvConf env imageChroot w).1.log
            (.removeAll (filepath.Join imageChroot.RootDir resolveConfPath)), none))) :=
  ⟨deleteResolvConf_absent env imageChroot w, fun hok =>
    ⟨(deleteResolvConf_ok_gone env imageChroot w hok).1,
      (deleteResolvConf_ok_gone env imageChroot w hok).2,
      deleteResolvConf_absent env imageChroot _
        (deleteResolvConf_ok_gone env imageChroot w hok).1
        (deleteResolvConf_ok_gone env imageChroot w hok).2⟩⟩

/-- Witness for C8: in `world0` the image has a resolver configuration; the first call
removes it and the second call changes nothing.  On a host without any file the call
changes nothing. -/
theorem deleteResolvConf_idempotent_witness :
    (Files.pathExists (deleteResolvConf envOk imgChroot world0).1.files
        (filepath.Join imgChroot.RootDir resolveConfPath) = false ∧
      deleteResolvConf envOk imgChroot (deleteResolvConf envOk imgChroot world0).1 =
        ((deleteResolvConf envOk imgChroot world0).1.log
          (.removeAll (filepath.Join imgChroot.RootDir resolveConfPath)), none)) ∧
    deleteResolvConf envOk imgChroot { world0 with files := [] } =
      (({ world0 with files := [] } : World).log
        (.removeAll (filepath.Join imgChroot.RootDir resolveConfPath)), none) :=
  ⟨⟨((deleteResolvConf_idempotent envOk imgChroot world0).2 (by decide)).1,
      ((deleteResolvConf_idempotent envOk imgChroot world0).2 (by decide)).2.2 rfl⟩,
    (deleteResolvConf_idempotent envOk imgChroot { world0 with files := [] }).1
      (by decide) (by decide) rfl⟩

/-- Counterexample to C8: the image has a regular file at `/etc`.  Then
`<imageRoot>/etc/resolv.conf` is absent, yet `os.RemoveAll` fails with `ENOTDIR` and
`deleteResolvConf` returns that error, wrapped, instead of `nil`.  Likewise on a host
without any file, when the environment rejects the removal. -/
theorem deleteResolvConf_absent_not_directory :
    Files.pathExists worldEtcFile.files
        (filepath.Join imgChroot.RootDir resolveConfPath) = false ∧
      Files.lookup worldEtcFile.files
        (filepath.Join imgChroot.RootDir resolveConfPath) = none ∧
      (deleteResolvConf envOk imgChroot worldEtcFile).2 =
        some (Errorf "failed to delete overridden resolv.conf file: "
          (.msg "unlinkat /img/etc/resolv.conf: not a directory")) ∧
      (deleteResolvConf envDenied imgChroot { world0 with files := [] }).2 =
        some (Errorf "failed to delete overridden resolv.conf file: "
          (.msg "unlinkat /img/etc/resolv.conf: permission denied")) := by
  decide

/-- C9: `updateHostname` with an empty hostname returns `nil` and leaves the world as it
is; with a non-empty hostname, when it returns `nil`, the file `<imageRoot>/etc/hostname`
holds exactly the hostname, every other path holds what it held, and mounts and process
root are untouched. -/
theorem updateHostname_spec (env : Env) (hostname : String) (imageChroot : Chroot)
    (w : World) :
    (hostname = "" → updateHostname env hostname imageChroot w = (w, none)) ∧
    (hostname ≠ "" → (updateHostname env hostname imageChroot w).2 = none →
      (Files.lookup (updateHostname env hostname imageChroot w).1.files
          (filepath.Join imageChroot.RootDir "etc/hostname")).map FileData.content
        = some hostname ∧
      (∀ q, q ≠ filepath.Join imageChroot.RootDir "etc/hostname" →
        Files.lookup (updateHostname env hostname imageChroot w).1.files q
          = Files.lookup w.files q) ∧
      (updateHostname env hostname imageChroot w).1.mounts = w.mounts ∧
      (updateHostname env hostname imageChroot w).1.root = w.root) := by
  constructor
  · intro h
    simp [updateHostname, h]
  · intro hne hok
    unfold updateHostname file.Write at hok ⊢
    simp only [hne, if_false, World.log] at hok ⊢
    split at hok
    · simp at hok
    · rename_i w1 heq
      split at heq
      · simp at heq
      · simp only [Prod.mk.injEq, and_true] at heq
        subst heq
        refine ⟨?_, ?_, rfl, rfl⟩
        · simp [Files.lookup_put_self]
        · intro q hq
          simp [Files.lookup_put_ne _ _ q _ hq]

/-- Witness for C9: the hostname `myhost` written into the image of `world0`, and the
empty hostname. -/
theorem updateHostname_spec_witness :
    ((Files.lookup (updateHostname envOk "myhost" imgChroot world0).1.files
          (filepath.Join imgChroot.RootDir "etc/hostname")).map FileData.content
        = some "myhost" ∧
      (∀ q, q ≠ filepath.Join imgChroot.RootDir "etc/hostname" →
        Files.lookup (updateHostname envOk "myhost" imgChroot world0).1.files q
          = Files.lookup world0.files q) ∧
      (updateHostname envOk "myhost" imgChroot world0).1.mounts = world0.mounts ∧
      (updateHostname envOk "myhost" imgChroot world0).1.root = world0.root) ∧
    updateHostname envOk "" imgChroot world0 = (world0, none) :=
  ⟨(updateHostname_spec envOk "myhost" imgChroot world0).2 (by decide) (by decide),
    (updateHostname_spec envOk "" imgChroot world0).1 rfl⟩

/-! ## `runScripts` -/

theorem newEvents_of_trace_eq (w w' : World) (new : List Event)
    (h : w'.trace = w.trace ++ new) : newEvents w w' = new := by
  simp [newEvents, h]

theorem runScript_spec (env : Env) (imageChroot : Chroot) (script : Script) (w : World) :
    (runScript env imageChroot script w).1.trace
        = w.trace ++ [execEvent env imageChroot w.mounts script] ∧
      (runScript env imageChroot script w).1.mounts = w.mounts ∧
      (runScript env imageChroot script w).1.root = w.root := by
  unfold runScript Chroot.UnsafeRun shell.ExecuteLive
  simp only [World.log]
  split <;> rename_i heq <;> simp only [Prod.mk.injEq] at heq <;> obtain ⟨h1, _⟩ := heq <;>
    subst h1 <;> simp [execEvent]

theorem scriptLoop_spec (env : Env) (imageChroot : Chroot) (scripts : List Script) :
    ∀ w : World, ∃ k, k ≤ scripts.length ∧ (scripts ≠ [] → 1 ≤ k) ∧
      (scriptLoop env imageChroot scripts w).1.trace
        = w.trace ++ (scripts.take k).map (execEvent env imageChroot w.mounts) ∧
      (scriptLoop env imageChroot scripts w).1.mounts = w.mounts ∧
      (scriptLoop env imageChroot scripts w).1.root = w.root ∧
      ((scriptLoop env imageChroot scripts w).2 = none → k = scripts.length) := by
  induction scripts with
  | nil =>
    intro w
    exact ⟨0, le_refl _, fun h => absurd rfl h, by simp [scriptLoop], rfl, rfl, fun _ => rfl⟩
  | cons script rest ih =>
    intro w
    obtain ⟨ht, hm, hr⟩ := runScript_spec env imageChroot script w
    unfold scriptLoop
    split
    · rename_i w1 err heq
      rw [heq] at ht hm hr
      simp only at ht hm hr
      refine ⟨1, by simp, fun _ => le_refl _, ?_, hm, hr, ?_⟩
      · simp [ht]
      · intro h
        simp at h
    · rename_i w1 heq
      rw [heq] at ht hm hr
      simp only at ht hm hr
      obtain ⟨k, hk, _, hkt, hkm, hkr, hkn⟩ := ih w1
      refine ⟨k + 1, by simpa using hk, fun _ => by omega, ?_, ?_, ?_, ?_⟩
      · simp [hkt, ht, hm]
      · rw [hkm, hm]
      · rw [hkr, hr]
      · intro h
        simp [hkn h]

/-- The function `runScripts` once the mount is acquired, in terms of the loop's
outcome: a failing script leaves only the deferred `Close`; after a successful loop the
explicit `Close` runs, and the deferred one does something only if the explicit one
failed. -/
theorem runScripts_acquired (env : Env) (baseConfigPath : String) (scripts : List Script)
    (imageChroot : Chroot) (w : World)
    (hm : env.mountFail baseConfigPath (configDirMountPath imageChroot) w = none) :
    runScripts env baseConfigPath scripts imageChroot w =
      match scriptLoop env imageChroot scripts
          ({ w with mounts := configDirMountPath imageChroot :: w.mounts }.log
            (.mount baseConfigPath (configDirMountPath imageChroot) true)) with
      | (w2, some err) =>
        ((Mount.Close env ⟨configDirMountPath imageChroot, true⟩ w2).2.1, some err)
      | (w2, none) =>
        match env.unmountFail (configDirMountPath imageChroot) w2 with
        | some err =>
          ((Mount.Close env ⟨configDirMountPath imageChroot, true⟩
            (w2.log (.unmount (configDirMountPath imageChroot) false))).2.1, some err)
        | none =>
          ({ w2 with mounts := w2.mounts.erase (configDirMountPath imageChroot) }.log
            (.unmount (configDirMountPath imageChroot) true), none) := by
  have key : ∀ (t : String) (w1 : World),
      ((Mount.Close env (runScriptsBody env scripts imageChroot ⟨t, true⟩ w1).1
          (runScriptsBody env scripts imageChroot ⟨t, true⟩ w1).2.1).2.1,
        (runScriptsBody env scripts imageChroot ⟨t, true⟩ w1).2.2) =
      match scriptLoop env imageChroot scripts w1 with
      | (w2, some err) => ((Mount.Close env ⟨t, true⟩ w2).2.1, some err)
      | (w2, none) =>
        match env.unmountFail t w2 with
        | some err => ((Mount.Close env ⟨t, true⟩ (w2.log (.unmount t false))).2.1, some err)
        | none => ({ w2 with mounts := w2.mounts.erase t }.log (.unmount t true), none) := by
    intro t w1
    unfold runScriptsBody
    rcases scriptLoop env imageChroot scripts w1 with ⟨w2, _ | err⟩
    · simp only [Mount.Close, if_true]
      rcases env.unmountFail t w2 with _ | err
      · rfl
      · rfl
    · rfl
  unfold runScripts safemount.NewMount
  simp only [configDirMountPath] at hm ⊢
  simp only [hm]
  exact key _ _

theorem Close_trace (env : Env) (t : String) (w : World) :
    ∃ tail, (Mount.Close env ⟨t, true⟩ w).2.1.trace = w.trace ++ tail ∧
      (∀ e ∈ tail, ∃ ok, e = Event.unmount t ok) ∧
      (Mount.Close env ⟨t, true⟩ w).2.1.root = w.root := by
  simp only [Mount.Close, if_true]
  rcases env.unmountFail t w with _ | err
  · exact ⟨[.unmount t true], rfl, by simp, rfl⟩
  · exact ⟨[.unmount t false], rfl, by simp, rfl⟩

/-- The events of a call of `runScripts`: one mount attempt, then the starts of an initial
segment of the scripts, each with the mount active, then only unmount attempts. -/
theorem runScripts_trace (env : Env) (baseConfigPath : String) (scripts : List Script)
    (imageChroot : Chroot) (w : World) :
    ∃ k ok tail, k ≤ scripts.length ∧
      (runScripts env baseConfigPath scripts imageChroot w).1.trace =
        w.trace ++ Event.mount baseConfigPath (configDirMountPath imageChroot) ok ::
          ((scripts.take k).map
            (execEvent env imageChroot (configDirMountPath imageChroot :: w.mounts)) ++ tail) ∧
      (∀ e ∈ tail, ∃ ok', e = Event.unmount (configDirMountPath imageChroot) ok') ∧
      (runScripts env baseConfigPath scripts imageChroot w).1.root = w.root := by
  rcases hm : env.mountFail baseConfigPath (configDirMountPath imageChroot) w with _ | err
  · rw [runScripts_acquired env baseConfigPath scripts imageChroot w hm]
    obtain ⟨k, hk, _, ht, hmo, hr, _⟩ := scriptLoop_spec env imageChroot scripts
      ({ w with mounts := configDirMountPath imageChroot :: w.mounts }.log
        (.mount baseConfigPath (configDirMountPath imageChroot) true))
    rcases hloop : scriptLoop env imageChroot scripts
      ({ w with mounts := configDirMountPath imageChroot :: w.mounts }.log
        (.mount baseConfigPath (configDirMountPath imageChroot) true)) with ⟨w2, _ | err⟩
    · rw [hloop] at ht hmo hr ⊢
      simp only [World.log] at ht hmo hr
      rcases hu : env.unmountFail (configDirMountPath imageChroot) w2 with _ | err
      · simp only [hu]
        refine ⟨k, true, [.unmount (configDirMountPath imageChroot) true], hk, ?_, by simp, ?_⟩
        · simp [World.log, ht]
        · simpa [World.log] using hr
      · simp only [hu]
        obtain ⟨tail, hc, htail, hcr⟩ := Close_trace env (configDirMountPath imageChroot)
          (w2.log (.unmount (configDirMountPath imageChroot) false))
        refine ⟨k, true, .unmount (configDirMountPath imageChroot) false :: tail, hk, ?_, ?_, ?_⟩
        · rw [hc]
          simp [World.log, ht]
        · intro e he
          rcases List.mem_cons.mp he with h | h
          · exact ⟨false, h⟩
          · exact htail e h
        · rw [hcr]
          exact hr
    · rw [hloop] at ht hmo hr ⊢
      simp only [World.log] at ht hmo hr
      simp only []
      obtain ⟨tail, hc, htail, hcr⟩ := Close_trace env (configDirMountPath imageChroot) w2
      refine ⟨k, true, tail, hk, ?_, htail, ?_⟩
      · simp [hc, ht]
      · rw [hcr]
        exact hr
  · refine ⟨0, false, [], Nat.zero_le _, ?_, by simp, ?_⟩
    · unfold runScripts safemount.NewMount
      simp only [configDirMountPath] at hm ⊢
      simp [hm, World.log]
    · unfold runScripts safemount.NewMount
      simp only [configDirMountPath] at hm ⊢
      simp [hm, World.log]

theorem execEvent_ne_unmount (env : Env) (c : Chroot) (ms : List String) (t : String)
    (ok : Bool) (l : List Script) :
    Event.unmount t ok ∉ l.map (execEvent env c ms) := by
  simp [execEvent]

/-- C2 (amended): for a script list of length at least one, once the mount is acquired and
provided the unmount is not rejected, the events of `runScripts` are: the mount, then the
starts of the executed scripts (at least one, in list order, all of them when `nil` is
returned), each with the configuration mount among the active mounts, then one unmount.
The mount is unmounted exactly once and the mount table is back to what it was, whether a
script failed or not. -/
theorem runScripts_mount_scoped (env : Env) (baseConfigPath : String) (scripts : List Script)
    (imageChroot : Chroot) (w : World)
    (hlen : 1 ≤ scripts.length)
    (hm : env.mountFail baseConfigPath (configDirMountPath imageChroot) w = none)
    (hu : ∀ w', env.unmountFail (configDirMountPath imageChroot) w' = none) :
    (∃ k, 1 ≤ k ∧ k ≤ scripts.length ∧
      ((runScripts env baseConfigPath scripts imageChroot w).2 = none → k = scripts.length) ∧
      newEvents w (runScripts env baseConfigPath scripts imageChroot w).1 =
        Event.mount baseConfigPath (configDirMountPath imageChroot) true ::
          ((scripts.take k).map
              (execEvent env imageChroot (configDirMountPath imageChroot :: w.mounts)) ++
            [Event.unmount (configDirMountPath imageChroot) true])) ∧
    (∀ r p a ms, Event.exec r p a ms ∈
        newEvents w (runScripts env baseConfigPath scripts imageChroot w).1 →
      configDirMountPath imageChroot ∈ ms) ∧
    (newEvents w (runScripts env baseConfigPath scripts imageChroot w).1).count
      (Event.unmount (configDirMountPath imageChroot) true) = 1 ∧
    (∀ t, Event.unmount t false ∉
      newEvents w (runScripts env baseConfigPath scripts imageChroot w).1) ∧
    (runScripts env baseConfigPath scripts imageChroot w).1.mounts = w.mounts := by
  have hne : scripts ≠ [] := by
    intro h
    simp [h] at hlen
  obtain ⟨k, hk, hk1, ht, hmo, _, hkn⟩ := scriptLoop_spec env imageChroot scripts
    ({ w with mounts := configDirMountPath imageChroot :: w.mounts }.log
      (.mount baseConfigPath (configDirMountPath imageChroot) true))
  have hshape :
      (runScripts env baseConfigPath scripts imageChroot w).1.trace =
        w.trace ++ Event.mount baseConfigPath (configDirMountPath imageChroot) true ::
          ((scripts.take k).map
              (execEvent env imageChroot (configDirMountPath imageChroot :: w.mounts)) ++
            [Event.unmount (configDirMountPath imageChroot) true]) ∧
      (runScripts env baseConfigPath scripts imageChroot w).1.mounts = w.mounts ∧
      ((runScripts env baseConfigPath scripts imageChroot w).2 = none →
        k = scripts.length) := by
    rw [runScripts_acquired env baseConfigPath scripts imageChroot w hm]
    rcases hloop : scriptLoop env imageChroot scripts
      ({ w with mounts := configDirMountPath imageChroot :: w.mounts }.log
        (.mount baseConfigPath (configDirMountPath imageChroot) true)) with ⟨w2, _ | err⟩
    · rw [hloop] at ht hmo hkn ⊢
      simp only [World.log] at ht hmo
      simp only [hu w2]
      refine ⟨?_, ?_, fun _ => hkn rfl⟩
      · simp [World.log, ht]
      · simp [World.log, hmo]
    · rw [hloop] at ht hmo ⊢
      simp only [World.log] at ht hmo
      simp only [Mount.Close, if_true, hu w2]
      refine ⟨?_, ?_, fun h => ?_⟩
      · simp [World.log, ht]
      · simp [World.log, hmo]
      · simp at h
  obtain ⟨htr, hmounts, hnone⟩ := hshape
  have hnew := newEvents_of_trace_eq w _ _ htr
  refine ⟨⟨k, hk1 hne, hk, hnone, hnew⟩, ?_, ?_, ?_, hmounts⟩
  · intro r p a ms hmem
    rw [hnew] at hmem
    rcases List.mem_cons.mp hmem with h | h
    · cases h
    · rcases List.mem_append.mp h with h | h
      · obtain ⟨s, _, hs⟩ := List.mem_map.mp h
        simp only [execEvent, Event.exec.injEq] at hs
        rw [← hs.2.2.2]
        exact List.mem_cons_self _ _
      · simp at h
  · rw [hnew]
    have h0 := List.count_eq_zero.mpr (execEvent_ne_unmount env imageChroot
      (configDirMountPath imageChroot :: w.mounts) (configDirMountPath imageChroot) true
      (scripts.take k))
    rw [List.count_cons, List.count_append, h0]
    simp
  · intro t hmem
    rw [hnew] at hmem
    rcases List.mem_cons.mp hmem with h | h
    · cases h
    · rcases List.mem_append.mp h with h | h
      · exact execEvent_ne_unmount env imageChroot _ t false _ h
      · simp at h

/-- Witness for C2: two scripts in an environment where nothing fails. -/
theorem runScripts_mount_scoped_witness :
    (newEvents world0
        (runScripts envOk "/cfg" [⟨"a.sh", "x"⟩, ⟨"b.sh", ""⟩] imgChroot world0).1).count
      (Event.unmount (configDirMountPath imgChroot) true) = 1 ∧
    (runScripts envOk "/cfg" [⟨"a.sh", "x"⟩, ⟨"b.sh", ""⟩] imgChroot world0).1.mounts
      = world0.mounts :=
  have h := runScripts_mount_scoped envOk "/cfg" [⟨"a.sh", "x"⟩, ⟨"b.sh", ""⟩] imgChroot
    world0 (by decide) (by decide) (fun _ => rfl)
  ⟨h.2.2.1, h.2.2.2.2⟩

/-- Counterexample to C2: when the unmount is rejected, `runScripts` with one script that
succeeds never unmounts the configuration directory and returns, with the unmount error,
while the mount is still active. -/
theorem runScripts_unmount_rejected :
    (newEvents world0 (runScripts envBusy "/cfg" [⟨"a.sh", ""⟩] imgChroot world0).1).count
        (Event.unmount "/img/_imageconfigs" true) = 0 ∧
      (runScripts envBusy "/cfg" [⟨"a.sh", ""⟩] imgChroot world0).1.mounts
        = ["/img/_imageconfigs"] ∧
      (runScripts envBusy "/cfg" [⟨"a.sh", ""⟩] imgChroot world0).2
        = some (.msg "umount: target is busy") := by
  decide

theorem execsOf_append (l₁ l₂ : List Event) : execsOf (l₁ ++ l₂) = execsOf l₁ ++ execsOf l₂ := by
  simp [execsOf]

theorem execsOf_execEvents (env : Env) (c : Chroot) (ms : List String) (l : List Script) :
    execsOf (l.map (execEvent env c ms)) = l.map (execEvent env c ms) := by
  induction l with
  | nil => rfl
  | cons s rest ih =>
    simp only [List.map_cons]
    rw [show execEvent env c ms s :: rest.map (execEvent env c ms)
      = [execEvent env c ms s] ++ rest.map (execEvent env c ms) from rfl, execsOf_append, ih]
    rfl

theorem execsOf_unmounts (t : String) (tail : List Event)
    (h : ∀ e ∈ tail, ∃ ok, e = Event.unmount t ok) : execsOf tail = [] := by
  induction tail with
  | nil => rfl
  | cons e rest ih =>
    obtain ⟨ok, he⟩ := h e (List.mem_cons_self _ _)
    subst he
    have := ih fun e' he' => h e' (List.mem_cons_of_mem _ he')
    simpa [execsOf] using this

theorem scriptLoop_append_fail (env : Env) (c : Chroot) (s : Script) (post : List Script)
    (wk wf : World) (err : GoError) (hs : runScript env c s wk = (wf, some err)) :
    ∀ (pre : List Script) (w : World), scriptLoop env c pre w = (wk, none) →
      scriptLoop env c (pre ++ s :: post) w = (wf, some err) := by
  intro pre
  induction pre with
  | nil =>
    intro w h
    simp only [scriptLoop, Prod.mk.injEq, and_true] at h
    subst h
    simp [scriptLoop, hs]
  | cons a rest ih =>
    intro w h
    simp only [List.cons_append]
    unfold scriptLoop at h ⊢
    rcases hr : runScript env c a w with ⟨w1, _ | e⟩
    · rw [hr] at h
      simp only at h ⊢
      exact ih w1 h
    · rw [hr] at h
      simp at h

/-- C3 (amended): `runScripts` on an empty list starts no command but is not a no-op: it
attempts the configuration mount.  If the mount is rejected it returns that error.  If the
mount and the unmount both succeed it returns `nil`, and the world it leaves is the world
it got (files, mounts and root unchanged) plus the record of one mount and one unmount. -/
theorem runScripts_nil (env : Env) (baseConfigPath : String) (imageChroot : Chroot)
    (w : World) :
    execsOf (newEvents w (runScripts env baseConfigPath [] imageChroot w).1) = [] ∧
    (∃ ok, (newEvents w (runScripts env baseConfigPath [] imageChroot w).1).head? =
      some (Event.mount baseConfigPath (configDirMountPath imageChroot) ok)) ∧
    (∀ err, env.mountFail baseConfigPath (configDirMountPath imageChroot) w = some err →
      runScripts env baseConfigPath [] imageChroot w =
        (w.log (.mount baseConfigPath (configDirMountPath imageChroot) false), some err)) ∧
    (env.mountFail baseConfigPath (configDirMountPath imageChroot) w = none →
      env.unmountFail (configDirMountPath imageChroot)
        ({ w with mounts := configDirMountPath imageChroot :: w.mounts }.log
          (.mount baseConfigPath (configDirMountPath imageChroot) true)) = none →
      runScripts env baseConfigPath [] imageChroot w =
        ({ w with trace := w.trace ++
            [.mount baseConfigPath (configDirMountPath imageChroot) true,
              .unmount (configDirMountPath imageChroot) true] }, none)) := by
  obtain ⟨k, ok, tail, hk, htr, htail, _⟩ :=
    runScripts_trace env baseConfigPath [] imageChroot w
  have hnew := newEvents_of_trace_eq w _ _ htr
  refine ⟨?_, ⟨ok, ?_⟩, ?_, ?_⟩
  · rw [hnew]
    have h2 := execsOf_unmounts _ tail htail
    simp only [List.take_nil, List.map_nil, List.nil_append]
    rw [show Event.mount baseConfigPath (configDirMountPath imageChroot) ok :: tail
      = [Event.mount baseConfigPath (configDirMountPath imageChroot) ok] ++ tail from rfl,
      execsOf_append, h2]
    rfl
  · rw [hnew]
    rfl
  · intro err hm
    unfold runScripts safemount.NewMount
    simp only [configDirMountPath] at hm ⊢
    simp [hm]
  · intro hm hu
    rw [runScripts_acquired env baseConfigPath [] imageChroot w hm]
    simp only [scriptLoop, hu]
    simp [World.log]

/-- Witness for C3: the empty list in an environment where nothing fails, and in one
where the mount is rejected. -/
theorem runScripts_nil_witness :
    runScripts envOk "/cfg" [] imgChroot world0 =
        ({ world0 with trace := world0.trace ++
            [.mount "/cfg" (configDirMountPath imgChroot) true,
              .unmount (configDirMountPath imgChroot) true] }, none) ∧
      runScripts envNoMount "/cfg" [] imgChroot world0 =
        (world0.log (.mount "/cfg" (configDirMountPath imgChroot) false),
          some (.msg "mount: permission denied")) :=
  ⟨(runScripts_nil envOk "/cfg" imgChroot world0).2.2.2 rfl rfl,
    (runScripts_nil envNoMount "/cfg" imgChroot world0).2.2.1 _ rfl⟩

/-- Counterexample to C3: on an empty list `runScripts` still mounts the configuration
directory, and when the mount is rejected it returns an error. -/
theorem runScripts_nil_not_noop :
    Event.mount "/cfg" "/img/_imageconfigs" true ∈
        (runScripts envOk "/cfg" [] imgChroot world0).1.trace ∧
      (runScripts envNoMount "/cfg" [] imgChroot world0).2
        = some (.msg "mount: permission denied") := by
  decide

theorem runScripts_execs (env : Env) (baseConfigPath : String) (scripts : List Script)
    (imageChroot : Chroot) (w : World) :
    ∃ k, k ≤ scripts.length ∧
      execsOf (newEvents w (runScripts env baseConfigPath scripts imageChroot w).1) =
        (scripts.take k).map
          (execEvent env imageChroot (configDirMountPath imageChroot :: w.mounts)) := by
  obtain ⟨k, ok, tail, hk, htr, htail, _⟩ :=
    runScripts_trace env baseConfigPath scripts imageChroot w
  refine ⟨k, hk, ?_⟩
  rw [newEvents_of_trace_eq w _ _ htr]
  rw [show Event.mount baseConfigPath (configDirMountPath imageChroot) ok ::
      ((scripts.take k).map
        (execEvent env imageChroot (configDirMountPath imageChroot :: w.mounts)) ++ tail)
    = [Event.mount baseConfigPath (configDirMountPath imageChroot) ok] ++
      ((scripts.take k).map
        (execEvent env imageChroot (configDirMountPath imageChroot :: w.mounts)) ++ tail)
    from rfl, execsOf_append, execsOf_append, execsOf_execEvents,
    execsOf_unmounts _ tail htail]
  simp [execsOf]

theorem runScripts_execs_all (env : Env) (baseConfigPath : String) (scripts : List Script)
    (imageChroot : Chroot) (w wk : World)
    (hm : env.mountFail baseConfigPath (configDirMountPath imageChroot) w = none)
    (hloop : scriptLoop env imageChroot scripts
      ({ w with mounts := configDirMountPath imageChroot :: w.mounts }.log
        (.mount baseConfigPath (configDirMountPath imageChroot) true)) = (wk, none)) :
    execsOf (newEvents w (runScripts env baseConfigPath scripts imageChroot w).1) =
      scripts.map (execEvent env imageChroot (configDirMountPath imageChroot :: w.mounts)) := by
  obtain ⟨k, _, _, hkt, hkm, _, hkn⟩ := scriptLoop_spec env imageChroot scripts
    ({ w with mounts := configDirMountPath imageChroot :: w.mounts }.log
      (.mount baseConfigPath (configDirMountPath imageChroot) true))
  rw [hloop] at hkt hkm hkn
  have hk := hkn rfl
  subst hk
  simp only [List.take_length, World.log] at hkt hkm
  have hshape : ∃ tail,
      (runScripts env baseConfigPath scripts imageChroot w).1.trace =
        w.trace ++ ([Event.mount baseConfigPath (configDirMountPath imageChroot) true] ++
          (scripts.map
            (execEvent env imageChroot (configDirMountPath imageChroot :: w.mounts)) ++ tail)) ∧
      ∀ e ∈ tail, ∃ ok, e = Event.unmount (configDirMountPath imageChroot) ok := by
    rw [runScripts_acquired env baseConfigPath scripts imageChroot w hm, hloop]
    rcases hu : env.unmountFail (configDirMountPath imageChroot) wk with _ | err
    · refine ⟨[.unmount (configDirMountPath imageChroot) true], ?_, by simp⟩
      simp only [hu]
      simp [World.log, hkt]
    · obtain ⟨tail, hc, htail, _⟩ := Close_trace env (configDirMountPath imageChroot)
        (wk.log (.unmount (configDirMountPath imageChroot) false))
      refine ⟨.unmount (configDirMountPath imageChroot) false :: tail, ?_, ?_⟩
      · simp only [hu]
        rw [hc]
        simp [World.log, hkt]
      · intro e he
        rcases List.mem_cons.mp he with h | h
        · exact ⟨false, h⟩
        · exact htail e h
  obtain ⟨tail, htr, htail⟩ := hshape
  rw [newEvents_of_trace_eq w _ _ htr, execsOf_append, execsOf_append, execsOf_execEvents,
    execsOf_unmounts _ tail htail]
  simp [execsOf]

theorem runScripts_ok_loop (env : Env) (baseConfigPath : String) (scripts : List Script)
    (imageChroot : Chroot) (w : World)
    (hok : (runScripts env baseConfigPath scripts imageChroot w).2 = none) :
    env.mountFail baseConfigPath (configDirMountPath imageChroot) w = none ∧
      ∃ wk, scriptLoop env imageChroot scripts
        ({ w with mounts := configDirMountPath imageChroot :: w.mounts }.log
          (.mount baseConfigPath (configDirMountPath imageChroot) true)) = (wk, none) := by
  rcases hm : env.mountFail baseConfigPath (configDirMountPath imageChroot) w with _ | err
  · refine ⟨rfl, ?_⟩
    rw [runScripts_acquired env baseConfigPath scripts imageChroot w hm] at hok
    rcases hloop : scriptLoop env imageChroot scripts
      ({ w with mounts := configDirMountPath imageChroot :: w.mounts }.log
        (.mount baseConfigPath (configDirMountPath imageChroot) true)) with ⟨wk, _ | err⟩
    · exact ⟨wk, hloop⟩
    · rw [hloop] at hok
      simp at hok
  · unfold runScripts safemount.NewMount at hok
    simp only [configDirMountPath] at hm
    simp [hm] at hok

/-- C4: `runScripts` starts the scripts in list order and only an initial segment of the
list.  When the mount is acquired and no script fails, every script of the list is
started, in list order; so it is whenever `runScripts` returns `nil`.  When, with the mount
acquired, the scripts before `s` succeed and `s` fails with `err`, then `runScripts`
returns `err`, and the commands started are exactly those of the scripts up to and
including `s`: no script after `s` is started.  When the mount is rejected no script is
started. -/
theorem runScripts_stops_at_first_failure (env : Env) (baseConfigPath : String)
    (scripts : List Script) (imageChroot : Chroot) (w : World) :
    (∃ k, k ≤ scripts.length ∧
      execsOf (newEvents w (runScripts env baseConfigPath scripts imageChroot w).1) =
        (scripts.take k).map
          (execEvent env imageChroot (configDirMountPath imageChroot :: w.mounts))) ∧
    (∀ (pre post : List Script) (s : Script) (wk wf : World) (err : GoError),
      scripts = pre ++ s :: post →
      env.mountFail baseConfigPath (configDirMountPath imageChroot) w = none →
      scriptLoop env imageChroot pre
        ({ w with mounts := configDirMountPath imageChroot :: w.mounts }.log
          (.mount baseConfigPath (configDirMountPath imageChroot) true)) = (wk, none) →
      runScript env imageChroot s wk = (wf, some err) →
      (runScripts env baseConfigPath scripts imageChroot w).2 = some err ∧
      execsOf (newEvents w (runScripts env baseConfigPath scripts imageChroot w).1) =
        (pre ++ [s]).map
          (execEvent env imageChroot (configDirMountPath imageChroot :: w.mounts))) ∧
    (∀ wk : World,
      env.mountFail baseConfigPath (configDirMountPath imageChroot) w = none →
      scriptLoop env imageChroot scripts
        ({ w with mounts := configDirMountPath imageChroot :: w.mounts }.log
          (.mount baseConfigPath (configDirMountPath imageChroot) true)) = (wk, none) →
      execsOf (newEvents w (runScripts env baseConfigPath scripts imageChroot w).1) =
        scripts.map
          (execEvent env imageChroot (configDirMountPath imageChroot :: w.mounts))) ∧
    ((runScripts env baseConfigPath scripts imageChroot w).2 = none →
      execsOf (newEvents w (runScripts env baseConfigPath scripts imageChroot w).1) =
        scripts.map
          (execEvent env imageChroot (configDirMountPath imageChroot :: w.mounts))) ∧
    (∀ err : GoError,
      env.mountFail baseConfigPath (configDirMountPath imageChroot) w = some err →
      (runScripts env baseConfigPath scripts imageChroot w).2 = some err ∧
      execsOf (newEvents w (runScripts env baseConfigPath scripts imageChroot w).1) = []) := by
  refine ⟨runScripts_execs env baseConfigPath scripts imageChroot w, ?_,
    fun wk hm hloop => runScripts_execs_all env baseConfigPath scripts imageChroot w wk hm hloop,
    ?_, ?_⟩
  · intro pre post s wk wf err hsplit hm hpre hs
    subst hsplit
    have hloop := scriptLoop_append_fail env imageChroot s post wk wf err hs pre _ hpre
    obtain ⟨k, _, _, hkt, hkm, _, hkn⟩ := scriptLoop_spec env imageChroot pre
      ({ w with mounts := configDirMountPath imageChroot :: w.mounts }.log
        (.mount baseConfigPath (configDirMountPath imageChroot) true))
    rw [hpre] at hkt hkm hkn
    have hk := hkn rfl
    subst hk
    simp only [List.take_length, World.log] at hkt hkm
    obtain ⟨hst, hsm, _⟩ := runScript_spec env imageChroot s wk
    rw [hs] at hst hsm
    simp only at hst hsm
    obtain ⟨tail, hc, htail, _⟩ := Close_trace env (configDirMountPath imageChroot) wf
    rw [runScripts_acquired env baseConfigPath (pre ++ s :: post) imageChroot w hm, hloop]
    refine ⟨rfl, ?_⟩
    have htr : (Mount.Close env ⟨configDirMountPath imageChroot, true⟩ wf).2.1.trace =
        w.trace ++ ([Event.mount baseConfigPath (configDirMountPath imageChroot) true] ++
          ((pre ++ [s]).map
            (execEvent env imageChroot (configDirMountPath imageChroot :: w.mounts)) ++ tail)) := by
      rw [hc, hst, hkt, hkm]
      simp
    simp only []
    rw [newEvents_of_trace_eq w _ _ htr, execsOf_append, execsOf_append, execsOf_execEvents,
      execsOf_unmounts _ tail htail]
    simp [execsOf]
  · intro hok
    obtain ⟨hm, wk, hloop⟩ := runScripts_ok_loop env baseConfigPath scripts imageChroot w hok
    exact runScripts_execs_all env baseConfigPath scripts imageChroot w wk hm hloop
  · intro err hm
    have hres : runScripts env baseConfigPath scripts imageChroot w =
        (w.log (.mount baseConfigPath (configDirMountPath imageChroot) false), some err) := by
      unfold runScripts safemount.NewMount
      simp only [configDirMountPath] at hm ⊢
      simp [hm]
    rw [hres]
    exact ⟨rfl, by simp [newEvents, World.log, execsOf]⟩

/-- Witness for C4: when the first of two scripts exits with status 1, the second is never
started and the error returned is the first script's; when nothing fails, both scripts are
started, `a.sh` before `b.sh`. -/
theorem runScripts_stops_at_first_failure_witness :
    ((runScripts envExit1 "/cfg" [⟨"a.sh", "x"⟩, ⟨"b.sh", ""⟩] imgChroot world0).2
        = some (.msg "exit status 1") ∧
      execsOf (newEvents world0
          (runScripts envExit1 "/cfg" [⟨"a.sh", "x"⟩, ⟨"b.sh", ""⟩] imgChroot world0).1) =
        ([] ++ [(⟨"a.sh", "x"⟩ : Script)]).map
          (execEvent envExit1 imgChroot (configDirMountPath imgChroot :: world0.mounts))) ∧
    execsOf (newEvents world0
        (runScripts envOk "/cfg" [⟨"a.sh", "x"⟩, ⟨"b.sh", ""⟩] imgChroot world0).1) =
      [(⟨"a.sh", "x"⟩ : Script), ⟨"b.sh", ""⟩].map
        (execEvent envOk imgChroot (configDirMountPath imgChroot :: world0.mounts)) ∧
    execsOf (newEvents world0
        (runScripts envNoMount "/cfg" [⟨"a.sh", "x"⟩, ⟨"b.sh", ""⟩] imgChroot world0).1) = [] :=
  ⟨(runScripts_stops_at_first_failure envExit1 "/cfg" [⟨"a.sh", "x"⟩, ⟨"b.sh", ""⟩] imgChroot
      world0).2.1 [] [⟨"b.sh", ""⟩] ⟨"a.sh", "x"⟩ _ _ (.msg "exit status 1") rfl rfl rfl rfl,
    (runScripts_stops_at_first_failure envOk "/cfg" [⟨"a.sh", "x"⟩, ⟨"b.sh", ""⟩] imgChroot
      world0).2.2.2.1 (by decide),
    ((runScripts_stops_at_first_failure envNoMount "/cfg" [⟨"a.sh", "x"⟩, ⟨"b.sh", ""⟩]
      imgChroot world0).2.2.2.2 (.msg "mount: permission denied") rfl).2⟩

/-! ## Steps leave no step marks -/

theorem stepsOf_append (l₁ l₂ : List Event) : stepsOf (l₁ ++ l₂) = stepsOf l₁ ++ stepsOf l₂ := by
  simp [stepsOf]

theorem stepsOf_execEvents (env : Env) (c : Chroot) (ms : List String) (l : List Script) :
    stepsOf (l.map (execEvent env c ms)) = [] := by
  induction l with
  | nil => rfl
  | cons s rest ih =>
    simp only [List.map_cons]
    rw [show execEvent env c ms s :: rest.map (execEvent env c ms)
      = [execEvent env c ms s] ++ rest.map (execEvent env c ms) from rfl, stepsOf_append, ih]
    rfl

theorem stepsOf_unmounts (t : String) (tail : List Event)
    (h : ∀ e ∈ tail, ∃ ok, e = Event.unmount t ok) : stepsOf tail = [] := by
  induction tail with
  | nil => rfl
  | cons e rest ih =>
    obtain ⟨ok, he⟩ := h e (List.mem_cons_self _ _)
    subst he
    have := ih fun e' he' => h e' (List.mem_cons_of_mem _ he')
    simpa [stepsOf] using this

theorem RemoveAll_steps (env : Env) (path : String) (w : World) :
    stepsOf (os.RemoveAll env path w).1.trace = stepsOf w.trace := by
  unfold os.RemoveAll
  simp only [World.log]
  split
  · simp [stepsOf]
  · split <;> simp [stepsOf]

theorem Copy_steps (env : Env) (src dst : String) (w : World) :
    stepsOf (file.Copy env src dst w).1.trace = stepsOf w.trace := by
  unfold file.Copy
  simp only [World.log]
  split
  · simp [stepsOf]
  · split <;> simp [stepsOf]

theorem Write_steps (env : Env) (data dst : String) (w : World) :
    stepsOf (file.Write env data dst w).1.trace = stepsOf w.trace := by
  unfold file.Write
  simp only [World.log]
  split <;> simp [stepsOf]

theorem AddFiles_steps (env : Env) (c : Chroot) (f : FileToCopy) (w : World) :
    stepsOf (c.AddFiles env f w).1.trace = stepsOf w.trace := by
  unfold Chroot.AddFiles
  simp only [World.log]
  split
  · simp [stepsOf]
  · split <;> simp [stepsOf]

theorem packages_steps (env : Env) (buildDir baseConfigPath : String) (config : SystemConfig)
    (c : Chroot) (rpms : List String) (useBase : Bool) (w : World) :
    stepsOf (addRemoveAndUpdatePackages env buildDir baseConfigPath config c rpms useBase
      w).1.trace = stepsOf w.trace := by
  simp [addRemoveAndUpdatePackages, World.log, stepsOf]

theorem overrideResolvConf_steps (env : Env) (c : Chroot) (w : World) :
    stepsOf (overrideResolvConf env c w).1.trace = stepsOf w.trace := by
  have h1 := RemoveAll_steps env (filepath.Join c.RootDir resolveConfPath) w
  unfold overrideResolvConf
  simp only
  rcases hr : os.RemoveAll env (filepath.Join c.RootDir resolveConfPath) w with ⟨w1, _ | e⟩
  · rw [hr] at h1
    have h2 := Copy_steps env resolveConfPath (filepath.Join c.RootDir resolveConfPath) w1
    simp only
    rcases hc : file.Copy env resolveConfPath (filepath.Join c.RootDir resolveConfPath) w1
      with ⟨w2, _ | e⟩
    · rw [hc] at h2
      exact h2.trans h1
    · rw [hc] at h2
      exact h2.trans h1
  · rw [hr] at h1
    exact h1

theorem deleteResolvConf_steps (env : Env) (c : Chroot) (w : World) :
    stepsOf (deleteResolvConf env c w).1.trace = stepsOf w.trace := by
  have h1 := RemoveAll_steps env (filepath.Join c.RootDir resolveConfPath) w
  unfold deleteResolvConf
  simp only
  rcases hr : os.RemoveAll env (filepath.Join c.RootDir resolveConfPath) w with ⟨w1, _ | e⟩
  · rw [hr] at h1
    exact h1
  · rw [hr] at h1
    exact h1

theorem updateHostname_steps (env : Env) (hostname : String) (c : Chroot) (w : World) :
    stepsOf (updateHostname env hostname c w).1.trace = stepsOf w.trace := by
  unfold updateHostname
  split
  · rfl
  · have h1 := Write_steps env hostname (filepath.Join c.RootDir "etc/hostname") w
    simp only
    rcases hr : file.Write env hostname (filepath.Join c.RootDir "etc/hostname") w
      with ⟨w1, _ | e⟩
    · rw [hr] at h1
      exact h1
    · rw [hr] at h1
      exact h1

theorem copyFileConfigs_steps (env : Env) (base src : String) (c : Chroot)
    (cfgs : List FileConfig) :
    ∀ w : World, stepsOf (copyFileConfigs env base src c cfgs w).1.trace = stepsOf w.trace := by
  induction cfgs with
  | nil => intro w; rfl
  | cons cfg rest ih =>
    intro w
    have h1 := AddFiles_steps env c ⟨filepath.Join base src, cfg.Path, cfg.Permissions⟩ w
    unfold copyFileConfigs
    simp only
    rcases hr : c.AddFiles env ⟨filepath.Join base src, cfg.Path, cfg.Permissions⟩ w
      with ⟨w1, _ | e⟩
    · rw [hr] at h1
      exact (ih w1).trans h1
    · rw [hr] at h1
      exact h1

theorem copyAdditionalFiles_steps (env : Env) (base : String) (c : Chroot)
    (m : List (String × List FileConfig)) :
    ∀ w : World, stepsOf (copyAdditionalFiles env base m c w).1.trace = stepsOf w.trace := by
  induction m with
  | nil => intro w; rfl
  | cons entry rest ih =>
    intro w
    obtain ⟨src, cfgs⟩ := entry
    have h1 := copyFileConfigs_steps env base src c cfgs w
    unfold copyAdditionalFiles
    rcases hr : copyFileConfigs env base src c cfgs w with ⟨w1, _ | e⟩
    · rw [hr] at h1
      exact (ih w1).trans h1
    · rw [hr] at h1
      exact h1

theorem runScripts_steps (env : Env) (base : String) (scripts : List Script) (c : Chroot)
    (w : World) : stepsOf (runScripts env base scripts c w).1.trace = stepsOf w.trace := by
  obtain ⟨k, ok, tail, _, htr, htail, _⟩ := runScripts_trace env base scripts c w
  rw [htr, stepsOf_append,
    show Event.mount base (configDirMountPath c) ok ::
        ((scripts.take k).map (execEvent env c (configDirMountPath c :: w.mounts)) ++ tail)
      = [Event.mount base (configDirMountPath c) ok] ++
        ((scripts.take k).map (execEvent env c (configDirMountPath c :: w.mounts)) ++ tail)
      from rfl, stepsOf_append, stepsOf_append, stepsOf_execEvents,
    stepsOf_unmounts _ tail htail]
  simp [stepsOf]

/-! ## `doCustomizations` -/

theorem doCustomizations_eq_pipeline (env : Env) (buildDir baseConfigPath : String)
    (config : SystemConfig) (imageChroot : Chroot) (rpmsSources : List String)
    (useBaseImageRpmRepos : Bool) (w : World) :
    doCustomizations env buildDir baseConfigPath config imageChroot rpmsSources
        useBaseImageRpmRepos w =
      pipeline (customizationSteps env buildDir baseConfigPath config imageChroot rpmsSources
        useBaseImageRpmRepos) w := by
  rfl

theorem pipeline_abort (steps : List (String × (World → World × Option GoError))) :
    ∀ (N : Nat) (name : String) (run : World → World × Option GoError) (w wN wf : World)
      (err : GoError),
      steps[N]? = some (name, run) →
      pipeline (steps.take N) w = (wN, none) →
      run (wN.log (.step name)) = (wf, some err) →
      pipeline steps w = (wf, some err) := by
  induction steps with
  | nil =>
    intro N name run w wN wf err hN
    simp at hN
  | cons head rest ih =>
    intro N name run w wN wf err hN hpre hrun
    obtain ⟨n0, r0⟩ := head
    cases N with
    | zero =>
      simp only [List.getElem?_cons_zero, Option.some.injEq, Prod.mk.injEq] at hN
      obtain ⟨h1, h2⟩ := hN
      subst h1 h2
      simp only [List.take_zero, pipeline, Prod.mk.injEq, and_true] at hpre
      subst hpre
      simp [pipeline, hrun]
    | succ N =>
      simp only [List.getElem?_cons_succ] at hN
      simp only [List.take_succ_cons] at hpre
      unfold pipeline at hpre ⊢
      rcases hr : r0 (w.log (.step n0)) with ⟨w1, _ | e⟩
      · rw [hr] at hpre
        simp only at hpre ⊢
        exact ih N name run w1 wN wf err hN hpre hrun
      · rw [hr] at hpre
        simp at hpre

theorem pipeline_steps (steps : List (String × (World → World × Option GoError)))
    (hsteps : ∀ p ∈ steps, ∀ v : World, stepsOf (p.2 v).1.trace = stepsOf v.trace) :
    ∀ w : World, ∃ k, k ≤ steps.length ∧
      stepsOf (pipeline steps w).1.trace = stepsOf w.trace ++ (steps.take k).map Prod.fst ∧
      ((pipeline steps w).2 = none → k = steps.length) := by
  induction steps with
  | nil =>
    intro w
    exact ⟨0, le_refl _, by simp [pipeline], fun _ => rfl⟩
  | cons head rest ih =>
    intro w
    obtain ⟨n0, r0⟩ := head
    have h0 := hsteps (n0, r0) (List.mem_cons_self _ _) (w.log (.step n0))
    have hlog : stepsOf (w.log (.step n0)).trace = stepsOf w.trace ++ [n0] := by
      simp [World.log, stepsOf]
    rw [hlog] at h0
    simp only [] at h0
    unfold pipeline
    rcases hr : r0 (w.log (.step n0)) with ⟨w1, _ | e⟩
    · rw [hr] at h0
      simp only at h0 ⊢
      obtain ⟨k, hk, hkt, hkn⟩ := ih (fun p hp => hsteps p (List.mem_cons_of_mem _ hp)) w1
      refine ⟨k + 1, by simpa using hk, ?_, ?_⟩
      · rw [hkt, h0]
        simp
      · intro h
        simp [hkn h]
    · rw [hr] at h0
      simp only at h0 ⊢
      refine ⟨1, by simp, ?_, ?_⟩
      · rw [h0]
        simp
      · intro h
        simp at h

theorem customizationSteps_steps (env : Env) (buildDir baseConfigPath : String)
    (config : SystemConfig) (imageChroot : Chroot) (rpmsSources : List String)
    (useBaseImageRpmRepos : Bool) :
    ∀ p ∈ customizationSteps env buildDir baseConfigPath config imageChroot rpmsSources
        useBaseImageRpmRepos,
      ∀ v : World, stepsOf (p.2 v).1.trace = stepsOf v.trace := by
  intro p hp v
  simp only [customizationSteps, List.mem_cons, List.mem_singleton, List.not_mem_nil,
    or_false] at hp
  rcases hp with h | h | h | h | h | h | h <;> subst h
  · exact overrideResolvConf_steps _ _ _
  · exact packages_steps _ _ _ _ _ _ _ _
  · exact updateHostname_steps _ _ _ _
  · exact copyAdditionalFiles_steps _ _ _ _ _
  · exact runScripts_steps _ _ _ _ _
  · exact runScripts_steps _ _ _ _ _
  · exact deleteResolvConf_steps _ _ _

theorem customizationSteps_names (env : Env) (buildDir baseConfigPath : String)
    (config : SystemConfig) (imageChroot : Chroot) (rpmsSources : List String)
    (useBaseImageRpmRepos : Bool) :
    (customizationSteps env buildDir baseConfigPath config imageChroot rpmsSources
      useBaseImageRpmRepos).map Prod.fst = stepNames := by
  rfl

/-- C1: `doCustomizations` is the seven-step pipeline.  The steps it calls are, in order,
the first `k` of `overrideResolvConf`, `addRemoveAndUpdatePackages`, `updateHostname`,
`copyAdditionalFiles`, `runScripts(PostInstallScripts)`, `runScripts(FinalizeImageScripts)`,
`deleteResolvConf`, with `k = 7` when it returns `nil`.  And for every index `N`: when the
steps before `N` succeed and step `N` fails with `err`, `doCustomizations` returns with the
world step `N` left and the error `err`, and the steps called are exactly the first
`N + 1`; no later step is called. -/
theorem doCustomizations_halts_at_first_failure (env : Env) (buildDir baseConfigPath : String)
    (config : SystemConfig) (imageChroot : Chroot) (rpmsSources : List String)
    (useBaseImageRpmRepos : Bool) (w : World) :
    (∃ k, k ≤ 7 ∧
      stepsOf (doCustomizations env buildDir baseConfigPath config imageChroot rpmsSources
        useBaseImageRpmRepos w).1.trace = stepsOf w.trace ++ stepNames.take k ∧
      ((doCustomizations env buildDir baseConfigPath config imageChroot rpmsSources
        useBaseImageRpmRepos w).2 = none → k = 7)) ∧
    (∀ (N : Nat) (name : String) (run : World → World × Option GoError) (wN wf : World)
      (err : GoError),
      (customizationSteps env buildDir baseConfigPath config imageChroot rpmsSources
        useBaseImageRpmRepos)[N]? = some (name, run) →
      pipeline ((customizationSteps env buildDir baseConfigPath config imageChroot rpmsSources
        useBaseImageRpmRepos).take N) w = (wN, none) →
      run (wN.log (.step name)) = (wf, some err) →
      doCustomizations env buildDir baseConfigPath config imageChroot rpmsSources
        useBaseImageRpmRepos w = (wf, some err) ∧
      stepsOf wf.trace = stepsOf w.trace ++ stepNames.take (N + 1)) := by
  have hsteps := customizationSteps_steps env buildDir baseConfigPath config imageChroot
    rpmsSources useBaseImageRpmRepos
  have hnames := customizationSteps_names env buildDir baseConfigPath config imageChroot
    rpmsSources useBaseImageRpmRepos
  constructor
  · obtain ⟨k, hk, hkt, hkn⟩ := pipeline_steps _ hsteps w
    rw [doCustomizations_eq_pipeline]
    refine ⟨k, hk, ?_, hkn⟩
    rw [hkt, List.map_take, hnames]
  · intro N name run wN wf err hN hpre hrun
    have hres := pipeline_abort _ N name run w wN wf err hN hpre hrun
    refine ⟨by rw [doCustomizations_eq_pipeline]; exact hres, ?_⟩
    obtain ⟨k, _, hkt, _⟩ := pipeline_steps _ hsteps w
    rw [hres] at hkt
    have hNlt : N < 7 := by
      have := (List.getElem?_eq_some_iff.mp hN).1
      simpa [customizationSteps] using this
    obtain ⟨j, hj, hjt, hjn⟩ := pipeline_steps
      ((customizationSteps env buildDir baseConfigPath config imageChroot rpmsSources
        useBaseImageRpmRepos).take N)
      (fun p hp => hsteps p (List.mem_of_mem_take hp)) w
    rw [hpre] at hjt hjn
    have hjN : j = N := by
      have := hjn rfl
      simp only [List.length_take] at this
      have hlen : (customizationSteps env buildDir baseConfigPath config imageChroot
        rpmsSources useBaseImageRpmRepos).length = 7 := rfl
      omega
    subst hjN
    simp only at hjt
    rw [List.take_take, Nat.min_self, List.map_take, hnames] at hjt
    have hrunsteps : stepsOf wf.trace = stepsOf (wN.log (.step name)).trace := by
      have := hsteps (name, run) (List.getElem?_mem hN) (wN.log (.step name))
      simp only [hrun] at this
      exact this
    have hname : stepNames[j]? = some name := by
      rw [← hnames, List.getElem?_map, hN]
      rfl
    rw [hrunsteps]
    have hlog : stepsOf (wN.log (.step name)).trace = stepsOf wN.trace ++ [name] := by
      simp [World.log, stepsOf]
    rw [hlog, hjt, List.append_assoc]
    congr 1
    rw [List.take_succ, hname]
    rfl

/-- Witness for C1: every command exits with status 1, so the fifth step (index 4), the
post-install scripts, fails; the run ends there. -/
theorem doCustomizations_halts_at_first_failure_witness :
    doCustomizations envExit1 "/build" "/cfg" config1 imgChroot [] false world0 =
        ((runScripts envExit1 "/cfg" config1.PostInstallScripts imgChroot
          ((pipeline ((customizationSteps envExit1 "/build" "/cfg" config1 imgChroot [] false).take
            4) world0).1.log (.step "runScripts(PostInstallScripts)"))).1,
          some (.msg "exit status 1")) ∧
      stepsOf (runScripts envExit1 "/cfg" config1.PostInstallScripts imgChroot
          ((pipeline ((customizationSteps envExit1 "/build" "/cfg" config1 imgChroot [] false).take
            4) world0).1.log (.step "runScripts(PostInstallScripts)"))).1.trace =
        stepsOf world0.trace ++ stepNames.take (4 + 1) :=
  (doCustomizations_halts_at_first_failure envExit1 "/build" "/cfg" config1 imgChroot [] false
    world0).2 4 "runScripts(PostInstallScripts)"
    (runScripts envExit1 "/cfg" config1.PostInstallScripts imgChroot)
    (pipeline ((customizationSteps envExit1 "/build" "/cfg" config1 imgChroot [] false).take 4)
      world0).1
    (runScripts envExit1 "/cfg" config1.PostInstallScripts imgChroot
      ((pipeline ((customizationSteps envExit1 "/build" "/cfg" config1 imgChroot [] false).take
        4) world0).1.log (.step "runScripts(PostInstallScripts)"))).1
    (.msg "exit status 1") rfl (by decide) (by decide)

theorem Copy_ok_present (env : Env) (src dst : String) (v w1 : World)
    (h : file.Copy env src dst v = (w1, none)) :
    (Files.lookup w1.files dst).isSome = true := by
  unfold file.Copy at h
  simp only [World.log] at h
  split at h
  · simp at h
  · split at h
    · simp at h
    · simp only [Prod.mk.injEq, and_true] at h
      subst h
      simp [Files.lookup_put_self]

theorem overrideResolvConf_ok_present (env : Env) (c : Chroot) (v w1 : World)
    (h : overrideResolvConf env c v = (w1, none)) :
    (Files.lookup w1.files (filepath.Join c.RootDir resolveConfPath)).isSome = true := by
  unfold overrideResolvConf at h
  simp only at h
  rcases hr : os.RemoveAll env (filepath.Join c.RootDir resolveConfPath) v with ⟨v1, _ | e⟩
  · rw [hr] at h
    simp only at h
    rcases hc : file.Copy env resolveConfPath (filepath.Join c.RootDir resolveConfPath) v1
      with ⟨v2, _ | e⟩
    · rw [hc] at h
      simp only [Prod.mk.injEq, and_true] at h
      subst h
      exact Copy_ok_present env _ _ v1 v2 hc
    · rw [hc] at h
      simp at h
  · rw [hr] at h
    simp at h

/-- C7: when `doCustomizations` returns `nil`, `<imageRoot>/etc/resolv.conf` does not exist
in the world it leaves, whatever the image held at the start; and the override step of that
run succeeded and left the file present. -/
theorem doCustomizations_resolvConf_absent (env : Env) (buildDir baseConfigPath : String)
    (config : SystemConfig) (imageChroot : Chroot) (rpmsSources : List String)
    (useBaseImageRpmRepos : Bool) (w : World)
    (hok : (doCustomizations env buildDir baseConfigPath config imageChroot rpmsSources
      useBaseImageRpmRepos w).2 = none) :
    Files.pathExists (doCustomizations env buildDir baseConfigPath config imageChroot
        rpmsSources useBaseImageRpmRepos w).1.files
      (filepath.Join imageChroot.RootDir resolveConfPath) = false ∧
    ∃ w1, overrideResolvConf env imageChroot (w.log (.step "overrideResolvConf")) = (w1, none) ∧
      (Files.lookup w1.files (filepath.Join imageChroot.RootDir resolveConfPath)).isSome
        = true := by
  unfold doCustomizations at hok ⊢
  rcases h1 : overrideResolvConf env imageChroot (w.log (.step "overrideResolvConf"))
    with ⟨w1, _ | e⟩
  swap
  · rw [h1] at hok
    simp at hok
  rw [h1] at hok
  simp only at hok ⊢
  rcases h2 : addRemoveAndUpdatePackages env buildDir baseConfigPath config imageChroot
    rpmsSources useBaseImageRpmRepos (w1.log (.step "addRemoveAndUpdatePackages"))
    with ⟨w2, _ | e⟩
  swap
  · rw [h2] at hok
    simp at hok
  rw [h2] at hok
  simp only at hok ⊢
  rcases h3 : updateHostname env config.Hostname imageChroot (w2.log (.step "updateHostname"))
    with ⟨w3, _ | e⟩
  swap
  · rw [h3] at hok
    simp at hok
  rw [h3] at hok
  simp only at hok ⊢
  rcases h4 : copyAdditionalFiles env baseConfigPath config.AdditionalFiles imageChroot
    (w3.log (.step "copyAdditionalFiles")) with ⟨w4, _ | e⟩
  swap
  · rw [h4] at hok
    simp at hok
  rw [h4] at hok
  simp only at hok ⊢
  rcases h5 : runScripts env baseConfigPath config.PostInstallScripts imageChroot
    (w4.log (.step "runScripts(PostInstallScripts)")) with ⟨w5, _ | e⟩
  swap
  · rw [h5] at hok
    simp at hok
  rw [h5] at hok
  simp only at hok ⊢
  rcases h6 : runScripts env baseConfigPath config.FinalizeImageScripts imageChroot
    (w5.log (.step "runScripts(FinalizeImageScripts)")) with ⟨w6, _ | e⟩
  swap
  · rw [h6] at hok
    simp at hok
  rw [h6] at hok
  simp only at hok ⊢
  rcases h7 : deleteResolvConf env imageChroot (w6.log (.step "deleteResolvConf"))
    with ⟨w7, _ | e⟩
  swap
  · rw [h7] at hok
    simp at hok
  have hdel := deleteResolvConf_ok_gone env imageChroot (w6.log (.step "deleteResolvConf"))
  rw [h7] at hdel
  exact ⟨(hdel rfl).1, w1, rfl, overrideResolvConf_ok_present env imageChroot _ w1 h1⟩

/-- Witness for C7: a full run in an environment where nothing fails; the image of
`world0` has a resolver configuration at the start. -/
theorem doCustomizations_resolvConf_absent_witness :
    Files.pathExists (doCustomizations envOk "/build" "/cfg" config1 imgChroot [] false
        world0).1.files (filepath.Join imgChroot.RootDir resolveConfPath) = false ∧
    ∃ w1, overrideResolvConf envOk imgChroot (world0.log (.step "overrideResolvConf"))
        = (w1, none) ∧
      (Files.lookup w1.files (filepath.Join imgChroot.RootDir resolveConfPath)).isSome = true :=
  doCustomizations_resolvConf_absent envOk "/build" "/cfg" config1 imgChroot [] false world0
    (by decide)

/-! ## Which error comes back -/

theorem overrideResolvConf_err (env : Env) (c : Chroot) (v v' : World) (err : GoError)
    (h : overrideResolvConf env c v = (v', some err)) :
    ∃ u cause,
      ((os.RemoveAll env (filepath.Join c.RootDir resolveConfPath) u).2 = some cause ∧
        err = Errorf "failed to delete existing resolv.conf file: " cause) ∨
      ((file.Copy env resolveConfPath (filepath.Join c.RootDir resolveConfPath) u).2
          = some cause ∧
        err = Errorf "failed to override resolv.conf file with host's resolv.conf: " cause) := by
  unfold overrideResolvConf at h
  simp only at h
  rcases hr : os.RemoveAll env (filepath.Join c.RootDir resolveConfPath) v with ⟨v1, _ | e⟩
  · rw [hr] at h
    simp only at h
    rcases hc : file.Copy env resolveConfPath (filepath.Join c.RootDir resolveConfPath) v1
      with ⟨v2, _ | e⟩
    · rw [hc] at h
      simp at h
    · rw [hc] at h
      simp only [Prod.mk.injEq, Option.some.injEq] at h
      exact ⟨v1, e, Or.inr ⟨by rw [hc], h.2.symm⟩⟩
  · rw [hr] at h
    simp only [Prod.mk.injEq, Option.some.injEq] at h
    exact ⟨v, e, Or.inl ⟨by rw [hr], h.2.symm⟩⟩

theorem deleteResolvConf_err (env : Env) (c : Chroot) (v v' : World) (err : GoError)
    (h : deleteResolvConf env c v = (v', some err)) :
    ∃ cause, (os.RemoveAll env (filepath.Join c.RootDir resolveConfPath) v).2 = some cause ∧
      err = Errorf "failed to delete overridden resolv.conf file: " cause := by
  unfold deleteResolvConf at h
  simp only at h
  rcases hr : os.RemoveAll env (filepath.Join c.RootDir resolveConfPath) v with ⟨v1, _ | e⟩
  · rw [hr] at h
    simp at h
  · rw [hr] at h
    simp only [Prod.mk.injEq, Option.some.injEq] at h
    exact ⟨e, rfl, h.2.symm⟩

theorem updateHostname_err (env : Env) (hostname : String) (c : Chroot) (v v' : World)
    (err : GoError) (h : updateHostname env hostname c v = (v', some err)) :
    ∃ cause, (file.Write env hostname (filepath.Join c.RootDir "etc/hostname") v).2
        = some cause ∧
      err = Errorf "failed to write hostname file: " cause := by
  unfold updateHostname at h
  split at h
  · simp at h
  · simp only at h
    rcases hr : file.Write env hostname (filepath.Join c.RootDir "etc/hostname") v
      with ⟨v1, _ | e⟩
    · rw [hr] at h
      simp at h
    · rw [hr] at h
      simp only [Prod.mk.injEq, Option.some.injEq] at h
      exact ⟨e, rfl, h.2.symm⟩

theorem copyFileConfigs_err (env : Env) (base src : String) (c : Chroot)
    (cfgs : List FileConfig) :
    ∀ (v v' : World) (err : GoError), copyFileConfigs env base src c cfgs v = (v', some err) →
      ∃ cfg ∈ cfgs, ∃ u,
        (c.AddFiles env ⟨filepath.Join base src, cfg.Path, cfg.Permissions⟩ u).2 = some err := by
  induction cfgs with
  | nil =>
    intro v v' err h
    simp [copyFileConfigs] at h
  | cons cfg rest ih =>
    intro v v' err h
    unfold copyFileConfigs at h
    simp only at h
    rcases hr : c.AddFiles env ⟨filepath.Join base src, cfg.Path, cfg.Permissions⟩ v
      with ⟨v1, _ | e⟩
    · rw [hr] at h
      simp only at h
      obtain ⟨cfg', hmem, u, hu⟩ := ih v1 v' err h
      exact ⟨cfg', List.mem_cons_of_mem _ hmem, u, hu⟩
    · rw [hr] at h
      simp only [Prod.mk.injEq, Option.some.injEq] at h
      exact ⟨cfg, List.mem_cons_self _ _, v, by rw [hr, ← h.2]⟩

theorem copyAdditionalFiles_err (env : Env) (base : String) (c : Chroot)
    (m : List (String × List FileConfig)) :
    ∀ (v v' : World) (err : GoError), copyAdditionalFiles env base m c v = (v', some err) →
      ∃ entry ∈ m, ∃ cfg ∈ entry.2, ∃ u,
        (c.AddFiles env ⟨filepath.Join base entry.1, cfg.Path, cfg.Permissions⟩ u).2
          = some err := by
  induction m with
  | nil =>
    intro v v' err h
    simp [copyAdditionalFiles] at h
  | cons entry rest ih =>
    intro v v' err h
    obtain ⟨src, cfgs⟩ := entry
    unfold copyAdditionalFiles at h
    rcases hr : copyFileConfigs env base src c cfgs v with ⟨v1, _ | e⟩
    · rw [hr] at h
      simp only at h
      obtain ⟨entry', hmem, cfg, hcfg, u, hu⟩ := ih v1 v' err h
      exact ⟨entry', List.mem_cons_of_mem _ hmem, cfg, hcfg, u, hu⟩
    · rw [hr] at h
      simp only [Prod.mk.injEq, Option.some.injEq] at h
      obtain ⟨cfg, hcfg, u, hu⟩ := copyFileConfigs_err env base src c cfgs v v1 e hr
      exact ⟨(src, cfgs), List.mem_cons_self _ _, cfg, hcfg, u, by rw [hu, h.2]⟩

theorem runScript_err (env : Env) (c : Chroot) (s : Script) (v : World) :
    (runScript env c s v).2 =
      (env.execute env.ShellProgram
        ["-c", filepath.Join configDirMountPathInChroot s.Path ++ " " ++ s.Args]
        ({ v with root := c.rootDir }.log (execEvent env c v.mounts s))).2 := by
  unfold runScript Chroot.UnsafeRun shell.ExecuteLive
  simp only [World.log, execEvent]
  split <;> rename_i heq <;> simp only [Prod.mk.injEq] at heq <;> rw [← heq.2]

theorem scriptLoop_err (env : Env) (c : Chroot) (scripts : List Script) :
    ∀ (v v' : World) (err : GoError), scriptLoop env c scripts v = (v', some err) →
      ∃ s ∈ scripts, ∃ u, (runScript env c s u).2 = some err := by
  induction scripts with
  | nil =>
    intro v v' err h
    simp [scriptLoop] at h
  | cons s rest ih =>
    intro v v' err h
    unfold scriptLoop at h
    rcases hr : runScript env c s v with ⟨v1, _ | e⟩
    · rw [hr] at h
      simp only at h
      obtain ⟨s', hmem, u, hu⟩ := ih v1 v' err h
      exact ⟨s', List.mem_cons_of_mem _ hmem, u, hu⟩
    · rw [hr] at h
      simp only [Prod.mk.injEq, Option.some.injEq] at h
      exact ⟨s, List.mem_cons_self _ _, v, by rw [hr, ← h.2]⟩

theorem runScripts_err (env : Env) (base : String) (scripts : List Script) (c : Chroot)
    (v v' : World) (err : GoError) (h : runScripts env base scripts c v = (v', some err)) :
    env.mountFail base (configDirMountPath c) v = some err ∨
      (∃ s ∈ scripts, ∃ u, (runScript env c s u).2 = some err) ∨
      (∃ u, env.unmountFail (configDirMountPath c) u = some err) := by
  rcases hm : env.mountFail base (configDirMountPath c) v with _ | e
  · rw [runScripts_acquired env base scripts c v hm] at h
    rcases hloop : scriptLoop env c scripts
      ({ v with mounts := configDirMountPath c :: v.mounts }.log
        (.mount base (configDirMountPath c) true)) with ⟨w2, _ | e⟩
    · rw [hloop] at h
      simp only at h
      rcases hu : env.unmountFail (configDirMountPath c) w2 with _ | e
      · rw [hu] at h
        simp at h
      · rw [hu] at h
        simp only [Prod.mk.injEq, Option.some.injEq] at h
        exact Or.inr (Or.inr ⟨w2, by rw [hu, h.2]⟩)
    · rw [hloop] at h
      simp only [Prod.mk.injEq, Option.some.injEq] at h
      obtain ⟨s, hs, u, hu⟩ := scriptLoop_err env c scripts _ w2 e hloop
      exact Or.inr (Or.inl ⟨s, hs, u, by rw [hu, h.2]⟩)
  · unfold runScripts safemount.NewMount at h
    simp only [configDirMountPath] at hm
    simp only [hm, Prod.mk.injEq, Option.some.injEq] at h
    exact Or.inl (by rw [h.2])

/-- C5 (amended): `doCustomizations` returns the error of the failing step as it is and
adds no context of its own.  `overrideResolvConf`, `deleteResolvConf` and `updateHostname`
return the error of `os.RemoveAll`, `file.Copy` or `file.Write` wrapped with a message that
names the failed operation.  `copyAdditionalFiles` returns the error of `AddFiles` as it is,
and `runScripts` returns the error of the mount, of the command or of the unmount as it is:
neither adds context, and no script is named. -/
theorem doCustomizations_error_forwarding (env : Env) (buildDir baseConfigPath : String)
    (config : SystemConfig) (imageChroot : Chroot) (rpmsSources : List String)
    (useBaseImageRpmRepos : Bool) (w : World) :
    (∀ (N : Nat) (name : String) (run : World → World × Option GoError) (wN wf : World)
      (err : GoError),
      (customizationSteps env buildDir baseConfigPath config imageChroot rpmsSources
        useBaseImageRpmRepos)[N]? = some (name, run) →
      pipeline ((customizationSteps env buildDir baseConfigPath config imageChroot rpmsSources
        useBaseImageRpmRepos).take N) w = (wN, none) →
      run (wN.log (.step name)) = (wf, some err) →
      (doCustomizations env buildDir baseConfigPath config imageChroot rpmsSources
        useBaseImageRpmRepos w).2 = some err) ∧
    (∀ (v v' : World) (err : GoError), overrideResolvConf env imageChroot v = (v', some err) →
      ∃ u cause,
        ((os.RemoveAll env (filepath.Join imageChroot.RootDir resolveConfPath) u).2
            = some cause ∧
          err = Errorf "failed to delete existing resolv.conf file: " cause) ∨
        ((file.Copy env resolveConfPath
            (filepath.Join imageChroot.RootDir resolveConfPath) u).2 = some cause ∧
          err = Errorf "failed to override resolv.conf file with host's resolv.conf: "
            cause)) ∧
    (∀ (v v' : World) (err : GoError), deleteResolvConf env imageChroot v = (v', some err) →
      ∃ cause,
        (os.RemoveAll env (filepath.Join imageChroot.RootDir resolveConfPath) v).2
          = some cause ∧
        err = Errorf "failed to delete overridden resolv.conf file: " cause) ∧
    (∀ (v v' : World) (err : GoError),
      updateHostname env config.Hostname imageChroot v = (v', some err) →
      ∃ cause,
        (file.Write env config.Hostname (filepath.Join imageChroot.RootDir "etc/hostname") v).2
          = some cause ∧
        err = Errorf "failed to write hostname file: " cause) ∧
    (∀ (v v' : World) (err : GoError),
      copyAdditionalFiles env baseConfigPath config.AdditionalFiles imageChroot v
        = (v', some err) →
      ∃ entry ∈ config.AdditionalFiles, ∃ cfg ∈ entry.2, ∃ u,
        (imageChroot.AddFiles env
          ⟨filepath.Join baseConfigPath entry.1, cfg.Path, cfg.Permissions⟩ u).2 = some err) ∧
    (∀ (scripts : List Script) (v v' : World) (err : GoError),
      runScripts env baseConfigPath scripts imageChroot v = (v', some err) →
      env.mountFail baseConfigPath (configDirMountPath imageChroot) v = some err ∨
      (∃ s ∈ scripts, ∃ u,
        (env.execute env.ShellProgram
          ["-c", filepath.Join configDirMountPathInChroot s.Path ++ " " ++ s.Args] u).2
          = some err) ∨
      (∃ u, env.unmountFail (configDirMountPath imageChroot) u = some err)) := by
  refine ⟨?_, overrideResolvConf_err env imageChroot, deleteResolvConf_err env imageChroot,
    updateHostname_err env config.Hostname imageChroot,
    copyAdditionalFiles_err env baseConfigPath imageChroot config.AdditionalFiles, ?_⟩
  · intro N name run wN wf err hN hpre hrun
    rw [doCustomizations_eq_pipeline, pipeline_abort _ N name run w wN wf err hN hpre hrun]
  · intro scripts v v' err h
    rcases runScripts_err env baseConfigPath scripts imageChroot v v' err h with h1 | h2 | h3
    · exact Or.inl h1
    · obtain ⟨s, hs, u, hu⟩ := h2
      rw [runScript_err] at hu
      exact Or.inr (Or.inl ⟨s, hs, _, hu⟩)
    · exact Or.inr (Or.inr h3)

/-- Witness for C5: every command exits with status 1; the post-install step fails and
`doCustomizations` returns that error as it is. -/
theorem doCustomizations_error_forwarding_witness :
    (doCustomizations envExit1 "/build" "/cfg" config1 imgChroot [] false world0).2
      = some (.msg "exit status 1") :=
  (doCustomizations_error_forwarding envExit1 "/build" "/cfg" config1 imgChroot [] false
    world0).1 4 "runScripts(PostInstallScripts)"
    (runScripts envExit1 "/cfg" config1.PostInstallScripts imgChroot)
    (pipeline ((customizationSteps envExit1 "/build" "/cfg" config1 imgChroot [] false).take 4)
      world0).1
    (runScripts envExit1 "/cfg" config1.PostInstallScripts imgChroot
      ((pipeline ((customizationSteps envExit1 "/build" "/cfg" config1 imgChroot [] false).take
        4) world0).1.log (.step "runScripts(PostInstallScripts)"))).1
    (.msg "exit status 1") rfl (by decide) (by decide)

/-- Counterexample to C5: a run that fails in the post-install script `a.sh` and a run that
fails in the finalize script `fin.sh` return the same error, the bare `exit status 1` of the
command: the error names neither the step nor the script. -/
theorem doCustomizations_error_not_annotated :
    (doCustomizations envExit1 "/build" "/cfg" config1 imgChroot [] false world0).2
        = some (.msg "exit status 1") ∧
      (stepsOf (doCustomizations envExit1 "/build" "/cfg" config1 imgChroot [] false
        world0).1.trace).getLast? = some "runScripts(PostInstallScripts)" ∧
      (doCustomizations envExit1 "/build" "/cfg" config2 imgChroot [] false world0).2
        = some (.msg "exit status 1") ∧
      (stepsOf (doCustomizations envExit1 "/build" "/cfg" config2 imgChroot [] false
        world0).1.trace).getLast? = some "runScripts(FinalizeImageScripts)" := by
  decide

/-! ## `copyAdditionalFiles` -/

theorem addAll_cons (env : Env) (c : Chroot) (f : FileToCopy) (rest : List FileToCopy)
    (w : World) :
    addAll env c (f :: rest) w =
      match c.AddFiles env f w with
      | (w, some err) => (w, some err)
      | (w, none) => addAll env c rest w := rfl

theorem copyFileConfigs_eq_addAll (env : Env) (base src : String) (c : Chroot)
    (cfgs : List FileConfig) (rest : List FileToCopy) :
    ∀ w : World,
      (match copyFileConfigs env base src c cfgs w with
        | (w1, some err) => (w1, some err)
        | (w1, none) => addAll env c rest w1) =
      addAll env c (cfgs.map (fun cfg =>
        ({ Src := filepath.Join base src, Dest := cfg.Path,
           Permissions := cfg.Permissions } : FileToCopy)) ++ rest) w := by
  induction cfgs with
  | nil =>
    intro w
    simp [copyFileConfigs]
  | cons cfg more ih =>
    intro w
    simp only [List.map_cons, List.cons_append]
    rw [addAll_cons]
    unfold copyFileConfigs
    simp only
    rcases hr : c.AddFiles env ⟨filepath.Join base src, cfg.Path, cfg.Permissions⟩ w
      with ⟨w1, _ | e⟩
    · simp only
      exact ih w1
    · rfl

theorem copyAdditionalFiles_eq_addAll (env : Env) (base : String) (c : Chroot)
    (m : List (String × List FileConfig)) :
    ∀ w : World, copyAdditionalFiles env base m c w = addAll env c (fileCopies base m) w := by
  induction m with
  | nil => intro w; rfl
  | cons entry rest ih =>
    intro w
    obtain ⟨src, cfgs⟩ := entry
    unfold copyAdditionalFiles
    simp only [fileCopies]
    rw [← copyFileConfigs_eq_addAll]
    rcases copyFileConfigs env base src c cfgs w with ⟨w1, _ | e⟩
    · exact ih w1
    · rfl

theorem fileCopies_perm (base : String) (l₁ l₂ : List (String × List FileConfig))
    (h : l₁.Perm l₂) : (fileCopies base l₁).Perm (fileCopies base l₂) := by
  induction h with
  | nil => exact List.Perm.refl _
  | cons x _ ih =>
    obtain ⟨src, cfgs⟩ := x
    exact List.Perm.append_left _ ih
  | swap x y l =>
    obtain ⟨sx, cx⟩ := x
    obtain ⟨sy, cy⟩ := y
    simp only [fileCopies]
    exact List.perm_append_comm_assoc _ _ _
  | trans _ _ ih₁ ih₂ => exact ih₁.trans ih₂

theorem mem_fileCopies (base : String) (m : List (String × List FileConfig))
    (entry : String × List FileConfig) (cfg : FileConfig) (he : entry ∈ m)
    (hc : cfg ∈ entry.2) :
    ({ Src := filepath.Join base entry.1, Dest := cfg.Path,
       Permissions := cfg.Permissions } : FileToCopy) ∈ fileCopies base m := by
  induction m with
  | nil => simp at he
  | cons head rest ih =>
    obtain ⟨src, cfgs⟩ := head
    simp only [fileCopies, List.mem_append, List.mem_map]
    rcases List.mem_cons.mp he with h | h
    · subst h
      exact Or.inl ⟨cfg, hc, rfl⟩
    · exact Or.inr (ih h)

theorem AddFiles_ok (env : Env) (c : Chroot) (f : FileToCopy) (w w1 : World)
    (h : c.AddFiles env f w = (w1, none)) :
    ∃ d, Files.lookup w.files f.Src = some d ∧
      Files.lookup w1.files (destPath c f) = some ⟨d.content, f.Permissions.getD d.mode⟩ ∧
      ∀ q, q ≠ destPath c f → Files.lookup w1.files q = Files.lookup w.files q := by
  unfold Chroot.AddFiles at h
  simp only [World.log] at h
  split at h
  · simp at h
  · rename_i d hd
    split at h
    · simp at h
    · simp only [Prod.mk.injEq, and_true] at h
      subst h
      refine ⟨d, hd, ?_, ?_⟩
      · simp [destPath, Files.lookup_put_self]
      · intro q hq
        simp only [destPath] at hq
        simp [Files.lookup_put_ne _ _ q _ hq]

theorem addAll_spec (env : Env) (c : Chroot) (l : List FileToCopy) :
    ∀ w : World, (addAll env c l w).2 = none →
      (l.map (destPath c)).Nodup →
      (∀ f ∈ l, ∀ g ∈ l, f.Src ≠ destPath c g) →
      (∀ f ∈ l, ∃ d, Files.lookup w.files f.Src = some d ∧
        Files.lookup (addAll env c l w).1.files (destPath c f)
          = some ⟨d.content, f.Permissions.getD d.mode⟩) ∧
      (∀ q, q ∉ l.map (destPath c) →
        Files.lookup (addAll env c l w).1.files q = Files.lookup w.files q) := by
  induction l with
  | nil =>
    intro w _ _ _
    exact ⟨fun f hf => by simp at hf, fun q _ => rfl⟩
  | cons f rest ih =>
    intro w hok hnd hsrc
    unfold addAll at hok ⊢
    rcases hr : c.AddFiles env f w with ⟨w1, _ | e⟩
    · rw [hr] at hok
      simp only at hok ⊢
      obtain ⟨d, hd, hdest, hframe⟩ := AddFiles_ok env c f w w1 hr
      simp only [List.map_cons, List.nodup_cons] at hnd
      obtain ⟨hih, hrest⟩ := ih w1 hok hnd.2
        (fun a ha b hb => hsrc a (List.mem_cons_of_mem _ ha) b (List.mem_cons_of_mem _ hb))
      constructor
      · intro g hg
        rcases List.mem_cons.mp hg with h | h
        · subst h
          exact ⟨d, hd, by rw [hrest _ hnd.1, hdest]⟩
        · obtain ⟨d', hd', hfin⟩ := hih g h
          refine ⟨d', ?_, hfin⟩
          rw [← hd']
          exact (hframe g.Src (hsrc g hg f (List.mem_cons_self _ _))).symm
      · intro q hq
        simp only [List.map_cons, List.mem_cons, not_or] at hq
        rw [hrest q hq.2, hframe q hq.1]
    · rw [hr] at hok
      simp at hok

/-- C6 (amended): let the destinations of an additional-files mapping be pairwise
different paths of the image, none of them the path of a source file.  Then for every order
`order` in which the `range` loop visits the entries of the mapping `m`, if
`copyAdditionalFiles` returns `nil`, every configured destination holds the bytes its
source file had at the start, with the configured mode if there is one and the source
file's mode at the start otherwise. -/
theorem copyAdditionalFiles_permissions (env : Env) (baseConfigPath : String)
    (m order : List (String × List FileConfig)) (imageChroot : Chroot) (w : World)
    (horder : order.Perm m)
    (hdistinct : ((fileCopies baseConfigPath m).map (destPath imageChroot)).Nodup)
    (hsrc : ∀ f ∈ fileCopies baseConfigPath m, ∀ g ∈ fileCopies baseConfigPath m,
      f.Src ≠ destPath imageChroot g)
    (hok : (copyAdditionalFiles env baseConfigPath order imageChroot w).2 = none) :
    ∀ entry ∈ m, ∀ cfg ∈ entry.2,
      ∃ d, Files.lookup w.files (filepath.Join baseConfigPath entry.1) = some d ∧
        Files.lookup (copyAdditionalFiles env baseConfigPath order imageChroot w).1.files
            (filepath.Join imageChroot.rootDir cfg.Path)
          = some ⟨d.content, cfg.Permissions.getD d.mode⟩ := by
  have hp := fileCopies_perm baseConfigPath order m horder
  rw [copyAdditionalFiles_eq_addAll] at hok ⊢
  have hnd : ((fileCopies baseConfigPath order).map (destPath imageChroot)).Nodup :=
    ((hp.map (destPath imageChroot)).nodup_iff).mpr hdistinct
  have hsrc' : ∀ f ∈ fileCopies baseConfigPath order, ∀ g ∈ fileCopies baseConfigPath order,
      f.Src ≠ destPath imageChroot g :=
    fun f hf g hg => hsrc f (hp.mem_iff.mp hf) g (hp.mem_iff.mp hg)
  obtain ⟨hall, _⟩ := addAll_spec env imageChroot _ w hok hnd hsrc'
  intro entry he cfg hc
  have hmem := hp.mem_iff.mpr (mem_fileCopies baseConfigPath m entry cfg he hc)
  exact hall _ hmem

/-- Witness for C6: the mapping of the specification's scenario, `a.txt` (mode 0600)
copied to `/opt/a` with mode 0644 and to `/opt/b` without a mode. -/
theorem copyAdditionalFiles_permissions_witness :
    Files.lookup (copyAdditionalFiles envOk "/cfg" config1.AdditionalFiles imgChroot
        world0).1.files (filepath.Join imgChroot.rootDir "/opt/a")
      = some ⟨"alpha", 0o644⟩ ∧
    Files.lookup (copyAdditionalFiles envOk "/cfg" config1.AdditionalFiles imgChroot
        world0).1.files (filepath.Join imgChroot.rootDir "/opt/b")
      = some ⟨"alpha", 0o600⟩ := by
  have h := copyAdditionalFiles_permissions envOk "/cfg" config1.AdditionalFiles
    config1.AdditionalFiles imgChroot world0 (List.Perm.refl _) (by decide) (by decide)
    (by decide)
  have hsrc : Files.lookup world0.files (filepath.Join "/cfg" "a.txt")
      = some ⟨"alpha", 0o600⟩ := by decide
  obtain ⟨d₁, hd₁, h₁⟩ := h ("a.txt", [⟨"/opt/a", some 0o644⟩, ⟨"/opt/b", none⟩])
    (by decide) ⟨"/opt/a", some 0o644⟩ (by decide)
  obtain ⟨d₂, hd₂, h₂⟩ := h ("a.txt", [⟨"/opt/a", some 0o644⟩, ⟨"/opt/b", none⟩])
    (by decide) ⟨"/opt/b", none⟩ (by decide)
  rw [hsrc] at hd₁ hd₂
  cases hd₁
  cases hd₂
  exact ⟨h₁, h₂⟩

/-- Counterexample to C6: `a.txt` and `b.txt` are both mapped to `/opt/x`, the first with
mode 0644 and the second without a mode (`b.txt` has mode 0755).  Visiting `a.txt` first
leaves `/opt/x` with mode 0755, not the configured 0644; visiting `b.txt` first leaves it
with mode 0644, not the mode of `b.txt`. -/
theorem copyAdditionalFiles_clash :
    (copyAdditionalFiles envOk "/cfg" clashingFiles imgChroot world0).2 = none ∧
      (Files.lookup (copyAdditionalFiles envOk "/cfg" clashingFiles imgChroot world0).1.files
        "/img/opt/x").map FileData.mode = some 0o755 ∧
      (copyAdditionalFiles envOk "/cfg" clashingFiles.reverse imgChroot world0).2 = none ∧
      (Files.lookup (copyAdditionalFiles envOk "/cfg" clashingFiles.reverse imgChroot
        world0).1.files "/img/opt/x").map FileData.mode = some 0o644 := by
  decide

/-! ## `filepath.Clean` and `filepath.Join` -/

namespace filepath

theorem copyElem_length (path : List Char) :
    ∀ out : List Char, (copyElem path out).1.length ≤ path.length := by
  induction path with
  | nil => intro out; simp [copyElem]
  | cons c rest ih =>
    intro out
    unfold copyElem
    split
    · simp
    · exact Nat.le_succ_of_le (ih _)

/-- Any amount of fuel that covers the unread part gives the same result: the loop of
`Clean` never stops for lack of fuel. -/
theorem cleanLoop_fuel (rooted : Bool) :
    ∀ (f₁ f₂ : Nat) (path out : List Char) (dotdot : Nat),
      path.length ≤ f₁ → path.length ≤ f₂ →
      cleanLoop rooted f₁ path out dotdot = cleanLoop rooted f₂ path out dotdot := by
  intro f₁
  induction f₁ with
  | zero =>
    intro f₂ path out dotdot h₁ _
    have hnil : path = [] := List.length_eq_zero.mp (Nat.le_zero.mp h₁)
    subst hnil
    cases f₂ <;> simp [cleanLoop]
  | succ n ih =>
    intro f₂ path out dotdot h₁ h₂
    cases f₂ with
    | zero =>
      have hnil : path = [] := List.length_eq_zero.mp (Nat.le_zero.mp h₂)
      subst hnil
      simp [cleanLoop]
    | succ m =>
      cases path with
      | nil => simp [cleanLoop]
      | cons c rest =>
        simp only [List.length_cons, Nat.add_le_add_iff_right] at h₁ h₂
        have hdrop : (rest.drop 1).length ≤ rest.length := by simp
        have hcopy := copyElem_length (c :: rest)
        simp only [cleanLoop]
        split
        · exact ih m rest out dotdot h₁ h₂
        · rename_i hsep
          split
          · exact ih m rest out dotdot h₁ h₂
          · split
            · split
              · exact ih m _ _ _ (le_trans hdrop h₁) (le_trans hdrop h₂)
              · split
                · exact ih m _ _ _ (le_trans hdrop h₁) (le_trans hdrop h₂)
                · exact ih m _ _ _ (le_trans hdrop h₁) (le_trans hdrop h₂)
            · have hlen : ∀ o : List Char, (copyElem (c :: rest) o).1.length ≤ rest.length := by
                intro o
                unfold copyElem
                simp only [hsep]
                exact copyElem_length rest _
              exact ih m _ _ _ (le_trans (hlen _) h₁) (le_trans (hlen _) h₂)

theorem copyElem_out (path : List Char) :
    ∀ out : List Char, ∃ elem, (copyElem path out).2 = out ++ elem := by
  induction path with
  | nil => intro out; exact ⟨[], by simp [copyElem]⟩
  | cons c rest ih =>
    intro out
    unfold copyElem
    split
    · exact ⟨[], by simp⟩
    · obtain ⟨elem, he⟩ := ih (out ++ [c])
      exact ⟨c :: elem, by rw [he]; simp⟩

theorem components_copyElem (path : List Char) :
    ∀ out : List Char,
      components (copyElem path out).1 = [] :: (components path).tail := by
  induction path with
  | nil => intro out; simp [copyElem, components]
  | cons c rest ih =>
    intro out
    unfold copyElem
    by_cases hsep : isSep c = true
    · simp [hsep, components]
    · simp only [hsep, Bool.false_eq_true, if_false]
      rw [ih]
      simp [components, hsep]

theorem dotDotElem_mem_components (path : List Char) (h : dotDotElem path = true) :
    ['.', '.'] ∈ components path := by
  match path, h with
  | [c, d], h =>
    simp only [dotDotElem, Bool.and_eq_true, beq_iff_eq] at h
    obtain ⟨hc, hd⟩ := h
    subst hc hd
    decide
  | c :: d :: e :: r, h =>
    simp only [dotDotElem, Bool.and_eq_true, beq_iff_eq] at h
    obtain ⟨⟨hc, hd⟩, he⟩ := h
    subst hc hd
    have hdot : isSep '.' = false := by decide
    simp [components, he, hdot]

theorem dotElem_components (c : Char) (rest : List Char) (h : dotElem (c :: rest) = true) :
    components rest = [] :: (components rest).tail := by
  match rest, h with
  | [], _ => simp [components]
  | d :: r, h =>
    simp only [dotElem, Bool.and_eq_true] at h
    simp [components, h.2]

/-- The loop of `Clean` on a rooted path without `..` component never backtracks: what is
in the buffer stays, so a buffer that holds `base` or a path below `base` still does at
the end. -/
theorem cleanLoop_below (base : List Char) (hbase : 2 ≤ base.length) :
    ∀ (fuel : Nat) (path out : List Char),
      ['.', '.'] ∉ components path →
      (out = base ∨ base ++ ['/'] <+: out) →
      (cleanLoop true fuel path out 1 = base ∨
        base ++ ['/'] <+: cleanLoop true fuel path out 1) := by
  intro fuel
  induction fuel with
  | zero =>
    intro path out _ hout
    simpa [cleanLoop] using hout
  | succ n ih =>
    intro path out hpath hout
    cases path with
    | nil => simpa [cleanLoop] using hout
    | cons c rest =>
      simp only [cleanLoop]
      split
      · rename_i hsep
        refine ih rest out ?_ hout
        intro hmem
        apply hpath
        simp [components, hsep, hmem]
      · rename_i hsep
        have htail : (components (c :: rest)).tail = (components rest).tail := by
          simp [components, hsep]
        split
        · rename_i hdot
          refine ih rest out ?_ hout
          intro hmem
          apply hpath
          rw [dotElem_components c rest hdot] at hmem
          rcases List.mem_cons.mp hmem with h | h
          · cases h
          · rw [← htail] at h
            exact List.mem_of_mem_tail h
        · split
          · rename_i hdd
            exact absurd (dotDotElem_mem_components _ hdd) hpath
          · have hlen : out.length ≠ 1 := by
              rcases hout with h | h
              · rw [h]
                omega
              · have := h.length_le
                simp only [List.length_append, List.length_singleton] at this
                omega
            have hout1 : base ++ ['/'] <+: out ++ ['/'] := by
              rcases hout with h | h
              · rw [h]
              · exact h.trans (List.prefix_append _ _)
            obtain ⟨elem, he⟩ := copyElem_out (c :: rest) (out ++ ['/'])
            simp only [Bool.true_and, Bool.not_true, Bool.false_and, Bool.or_false,
              bne_iff_ne, ne_eq, hlen, not_false_eq_true, if_true]
            refine ih _ _ ?_ (Or.inr ?_)
            · intro hmem
              apply hpath
              rw [components_copyElem] at hmem
              rcases List.mem_cons.mp hmem with h | h
              · cases h
              · exact List.mem_of_mem_tail h
            · rw [he]
              exact hout1.trans (List.prefix_append _ _)

theorem copyElem_imageconfigs (p out : List Char) :
    copyElem ('_' :: 'i' :: 'm' :: 'a' :: 'g' :: 'e' :: 'c' :: 'o' :: 'n' :: 'f' :: 'i' :: 'g' :: 's' :: '/' :: p) out = ('/' :: p, out ++ ['_', 'i', 'm', 'a', 'g', 'e', 'c', 'o', 'n', 'f', 'i', 'g', 's']) := by
  simp [copyElem, isSep]

theorem cleanLoop_imageconfigs (n : Nat) (p : List Char) :
    cleanLoop true (n + 1) ('_' :: 'i' :: 'm' :: 'a' :: 'g' :: 'e' :: 'c' :: 'o' :: 'n' :: 'f' :: 'i' :: 'g' :: 's' :: '/' :: p) ['/'] 1 =
      cleanLoop true n ('/' :: p) ['/', '_', 'i', 'm', 'a', 'g', 'e', 'c', 'o', 'n', 'f', 'i', 'g', 's'] 1 := by
  rw [cleanLoop]
  simp only [isSep, dotElem, dotDotElem]
  simp [copyElem_imageconfigs]

/-- The function `Clean` on `/_imageconfigs/p`, for a `p` without `..` component, gives
`/_imageconfigs` or a path below it. -/
theorem cleanChars_imageconfigs (p : List Char) (hp : ['.', '.'] ∉ components p) :
    cleanChars ('/' :: '_' :: 'i' :: 'm' :: 'a' :: 'g' :: 'e' :: 'c' :: 'o' :: 'n' :: 'f' :: 'i' :: 'g' :: 's' :: '/' :: p) = ['/', '_', 'i', 'm', 'a', 'g', 'e', 'c', 'o', 'n', 'f', 'i', 'g', 's'] ∨
      ['/', '_', 'i', 'm', 'a', 'g', 'e', 'c', 'o', 'n', 'f', 'i', 'g', 's'] ++ ['/'] <+: cleanChars ('/' :: '_' :: 'i' :: 'm' :: 'a' :: 'g' :: 'e' :: 'c' :: 'o' :: 'n' :: 'f' :: 'i' :: 'g' :: 's' :: '/' :: p) := by
  have hkey := cleanLoop_below ['/', '_', 'i', 'm', 'a', 'g', 'e', 'c', 'o', 'n', 'f', 'i', 'g', 's'] (by decide) (p.length + 14) ('/' :: p) ['/', '_', 'i', 'm', 'a', 'g', 'e', 'c', 'o', 'n', 'f', 'i', 'g', 's']
    (by
      intro hmem
      apply hp
      have hs : isSep '/' = true := by decide
      simpa [components, hs] using hmem)
    (Or.inl rfl)
  have hloop : cleanLoop true ('/' :: '_' :: 'i' :: 'm' :: 'a' :: 'g' :: 'e' :: 'c' :: 'o' :: 'n' :: 'f' :: 'i' :: 'g' :: 's' :: '/' :: p).length ('_' :: 'i' :: 'm' :: 'a' :: 'g' :: 'e' :: 'c' :: 'o' :: 'n' :: 'f' :: 'i' :: 'g' :: 's' :: '/' :: p) ['/'] 1 =
      cleanLoop true (p.length + 14) ('/' :: p) ['/', '_', 'i', 'm', 'a', 'g', 'e', 'c', 'o', 'n', 'f', 'i', 'g', 's'] 1 := by
    rw [cleanLoop_fuel true _ (p.length + 14 + 1) _ _ _ (by simp) (by simp),
      cleanLoop_imageconfigs]
  have hne : (cleanLoop true (p.length + 14) ('/' :: p) ['/', '_', 'i', 'm', 'a', 'g', 'e', 'c', 'o', 'n', 'f', 'i', 'g', 's'] 1).length ≠ 0 := by
    rcases hkey with h | h
    · rw [h]
      decide
    · have := h.length_le
      simp only [List.length_append, List.length_singleton] at this
      omega
  have hclean : cleanChars ('/' :: '_' :: 'i' :: 'm' :: 'a' :: 'g' :: 'e' :: 'c' :: 'o' :: 'n' :: 'f' :: 'i' :: 'g' :: 's' :: '/' :: p) =
      cleanLoop true (p.length + 14) ('/' :: p) ['/', '_', 'i', 'm', 'a', 'g', 'e', 'c', 'o', 'n', 'f', 'i', 'g', 's'] 1 := by
    unfold cleanChars
    simp only [show isSep '/' = true from by decide, if_true]
    rw [hloop]
    simp [hne]
  rw [hclean]
  exact hkey

/-- The call `filepath.Join("/_imageconfigs", p)` for a `p` without `..` component is
`/_imageconfigs` or a path below it. -/
theorem Join_below (p : String) (hp : ['.', '.'] ∉ components p.data) :
    IsAtOrBelow "/_imageconfigs" (Join "/_imageconfigs" p) := by
  have hB : "/_imageconfigs".data = ['/', '_', 'i', 'm', 'a', 'g', 'e', 'c', 'o', 'n', 'f', 'i', 'g', 's'] := by decide
  have hjoin : (Join "/_imageconfigs" p).data = cleanChars ('/' :: '_' :: 'i' :: 'm' :: 'a' :: 'g' :: 'e' :: 'c' :: 'o' :: 'n' :: 'f' :: 'i' :: 'g' :: 's' :: '/' :: p.data) := by
    simp only [Join, hB]
    simp [joinChars, joinSep]
  unfold IsAtOrBelow
  rw [hjoin, hB]
  exact cleanChars_imageconfigs p.data hp

end filepath

/-- The components of `a/../b.sh` are `a`, `..` and `b.sh`. -/
theorem components_example :
    components "a/../b.sh".data = ["a".data, "..".data, "b.sh".data] := by
  decide

/-- C10 (amended): every command `runScripts` starts is the shell with `-c` and the command
line `filepath.Join("/_imageconfigs", script.Path) + " " + script.Args` of a script of the
list, run with the image root as process root and the configuration mount active; and when
`script.Path` has no `..` component, that joined path is `/_imageconfigs` or a path below
it. -/
theorem runScripts_script_path (env : Env) (baseConfigPath : String) (scripts : List Script)
    (imageChroot : Chroot) (w : World) :
    ∀ e ∈ execsOf (newEvents w (runScripts env baseConfigPath scripts imageChroot w).1),
      ∃ s ∈ scripts,
        e = Event.exec imageChroot.rootDir env.ShellProgram
          ["-c", filepath.Join configDirMountPathInChroot s.Path ++ " " ++ s.Args]
          (configDirMountPath imageChroot :: w.mounts) ∧
        (['.', '.'] ∉ components s.Path.data →
          IsAtOrBelow configDirMountPathInChroot
            (filepath.Join configDirMountPathInChroot s.Path)) := by
  intro e he
  obtain ⟨k, _, hk⟩ := runScripts_execs env baseConfigPath scripts imageChroot w
  rw [hk] at he
  obtain ⟨s, hs, hse⟩ := List.mem_map.mp he
  exact ⟨s, List.mem_of_mem_take hs, hse.symm, fun h => filepath.Join_below s.Path h⟩

/-- Witness for C10: the script `sub/a.sh` is run as `/_imageconfigs/sub/a.sh`. -/
theorem runScripts_script_path_witness :
    IsAtOrBelow configDirMountPathInChroot
      (filepath.Join configDirMountPathInChroot "sub/a.sh") := by
  obtain ⟨s, hs, _, hbelow⟩ := runScripts_script_path envOk "/cfg" [⟨"sub/a.sh", "x"⟩]
    imgChroot world0
    (.exec "/img" "/bin/sh" ["-c", "/_imageconfigs/sub/a.sh x"] ["/img/_imageconfigs"])
    (by decide)
  rw [List.mem_singleton] at hs
  subst hs
  exact hbelow (by decide)

/-- Counterexample to C10: for the script path `../etc/passwd` the path at the start of the
command line is `/etc/passwd`, which is not below `/_imageconfigs`. -/
theorem runScripts_script_path_escapes :
    execsOf (newEvents world0
        (runScripts envOk "/cfg" [⟨"../etc/passwd", ""⟩] imgChroot world0).1) =
      [Event.exec "/img" "/bin/sh" ["-c", "/etc/passwd "] ["/img/_imageconfigs"]] ∧
    filepath.Join configDirMountPathInChroot "../etc/passwd" = "/etc/passwd" ∧
    ¬ IsAtOrBelow configDirMountPathInChroot
      (filepath.Join configDirMountPathInChroot "../etc/passwd") := by
  refine ⟨by decide, by decide, ?_⟩
  unfold IsAtOrBelow
  decide

end ImageCustomizer
